import Mathlib

/-!
Shallow embedding of the `elfreader` ELF-metadata decoder (files under
`src/elf/`): the endian primitive decoder (`bytes.rs`), the enumerated
field decoders and `Word` (`common.rs`), the file-header decoder
(`header.rs`), the program-header decoder (`program_header.rs`), the
section-header decoder and name resolution (`section_header.rs`), and the
pure parts of the metadata orchestrator (`metadata.rs`).

Conventions:
- Byte slices are `List Nat`; where byte-validity matters a theorem
  carries the hypothesis that every element is `< 256`.
- Machine integers are `Nat` with explicit `% 2 ^ w` where the Rust code
  can overflow (the `u16` offset arithmetic in `metadata.rs`).
- Fallible Rust functions returning `Result` become `Except ParseError`.
- A Rust panic (a failed `assert!`, or an out-of-range slice index such
  as `&names_table[index..]` in `to_named`) is modelled by `Option.none`
  on an outer `Option` layer wherever a panic is actually reachable.
  Inside `Header::parse_bytes`, `ProgramHeader::parse_bytes` and
  `UnnamedSectionHeader::parse_bytes` every `from_bytes` call is
  dominated by a length check that makes its `assert!` unreachable
  (offset + width ≤ checked minimum length ≤ slice length), so those
  calls are modelled by the total value functions `val16`/`val32`/`val64`.
-/

namespace Elf

/-- Decidable equality for `Except`, needed to evaluate parse results on
concrete inputs. -/
instance {ε α : Type} [DecidableEq ε] [DecidableEq α] :
    DecidableEq (Except ε α) := fun x y =>
  match x, y with
  | .error a, .error b =>
      if h : a = b then isTrue (congrArg Except.error h)
      else isFalse (fun hh => h (Except.error.inj hh))
  | .ok a, .ok b =>
      if h : a = b then isTrue (congrArg Except.ok h)
      else isFalse (fun hh => h (Except.ok.inj hh))
  | .error _, .ok _ => isFalse (fun hh => Except.noConfusion hh)
  | .ok _, .error _ => isFalse (fun hh => Except.noConfusion hh)

/-- Endianness (common.rs). -/
inductive Endianness where
  | Little
  | Big
deriving DecidableEq, Repr

/-- WordWidth (common.rs). -/
inductive WordWidth where
  | Width32
  | Width64
deriving DecidableEq, Repr

/-- FileType (common.rs). -/
inductive FileType where
  | None
  | Relocatable
  | Executable
  | Shared
  | Core
  | Specific (code : Nat)
deriving DecidableEq, Repr

/-- Abi (common.rs). -/
inductive Abi where
  | SysV | HpUx | NetBSD | Linux | GnuHurd | Solaris | Aix | Irix | FreeBSD
  | Tru64 | NovellModesto | OpenBSD | OpenVMS | NonStopKernel | Aros
  | FenixOS | CloudABI | OpenVOS | Unknown
deriving DecidableEq, Repr

/-- Arch (common.rs). -/
inductive Arch where
  | Unspecified | WE32100 | Sparc | X86 | M68k | M88k | IntelMCU
  | Intel80860 | MIPS | System370 | RS3000 | PARISC | Intel80960
  | PowerPC | PowerPC64 | S390 | ARM | SuperH | IA64 | X86_64
  | TMS320C6000 | AArch64 | RISCV | BPF | WDC65C816 | Unknown
deriving DecidableEq, Repr

/-- Word (common.rs): a 32- or 64-bit unsigned value. -/
inductive Word where
  | Word32 (u : Nat)
  | Word64 (u : Nat)
deriving DecidableEq, Repr

/-- SectionHeaderType (section_header.rs). -/
inductive SectionHeaderType where
  | Null | ProgramBits | SymbolTable | StringTable | RelocationWithAddends
  | Hash | Dynamic | Note | NoData | Relocation | SharedLib
  | DynamicSymbolTable | ConstructorArray | DestructorArray
  | PreConstructorArray | Group | SectionIndices | Num
  | OsSpecific (raw : Nat)
deriving DecidableEq, Repr

/-- ParseError (common.rs / use sites).  `InvalidSectionName` drops the
opaque `IntoStringError` payload. -/
inductive ParseError where
  | InsuffcientHeaderLength (actual : Nat)
  | NoELF (value : Nat)
  | InvalidWordWidth (b : Nat)
  | InvalidEndianness (b : Nat)
  | InvalidFileType (code : Nat)
  | InsufficientPartLength (actual : Nat)
  | InvalidProgHeaderType (code : Nat)
  | InvalidProgHeaderLength (actual : Nat)
  | InvalidAlignment (value : Nat)
  | InvalidVirtualAddress (addr : Word)
  | InsufficientSectionHeaderLength (actual : Nat)
  | InvalidSectionHeaderType (raw : Nat)
  | InvalidSectionHeaderFlags (raw : Nat)
  | UnterminatedString
  | InvalidSectionName
  | InvalidSectionNameTableType (typ : SectionHeaderType)
deriving DecidableEq, Repr

/-- Value of the first two bytes of a slice in the given byte order
(bytes.rs: `get_u16_bytes` followed by `u16::from_le_bytes` or
`u16::from_be_bytes`). -/
def val16 (bytes : List Nat) (endianness : Endianness) : Nat :=
  match endianness with
  | .Little => bytes.getD 0 0 + 2 ^ 8 * bytes.getD 1 0
  | .Big => bytes.getD 1 0 + 2 ^ 8 * bytes.getD 0 0

/-- Value of the first four bytes of a slice in the given byte order
(bytes.rs: `get_u32_bytes` + `u32::from_le_bytes`/`from_be_bytes`). -/
def val32 (bytes : List Nat) (endianness : Endianness) : Nat :=
  match endianness with
  | .Little =>
      bytes.getD 0 0 + 2 ^ 8 * bytes.getD 1 0 + 2 ^ 16 * bytes.getD 2 0
        + 2 ^ 24 * bytes.getD 3 0
  | .Big =>
      bytes.getD 3 0 + 2 ^ 8 * bytes.getD 2 0 + 2 ^ 16 * bytes.getD 1 0
        + 2 ^ 24 * bytes.getD 0 0

/-- Value of the first eight bytes of a slice in the given byte order
(bytes.rs: `get_u64_bytes` + `u64::from_le_bytes`/`from_be_bytes`). -/
def val64 (bytes : List Nat) (endianness : Endianness) : Nat :=
  match endianness with
  | .Little =>
      bytes.getD 0 0 + 2 ^ 8 * bytes.getD 1 0 + 2 ^ 16 * bytes.getD 2 0
        + 2 ^ 24 * bytes.getD 3 0 + 2 ^ 32 * bytes.getD 4 0
        + 2 ^ 40 * bytes.getD 5 0 + 2 ^ 48 * bytes.getD 6 0
        + 2 ^ 56 * bytes.getD 7 0
  | .Big =>
      bytes.getD 7 0 + 2 ^ 8 * bytes.getD 6 0 + 2 ^ 16 * bytes.getD 5 0
        + 2 ^ 24 * bytes.getD 4 0 + 2 ^ 32 * bytes.getD 3 0
        + 2 ^ 40 * bytes.getD 2 0 + 2 ^ 48 * bytes.getD 1 0
        + 2 ^ 56 * bytes.getD 0 0

/-- `<u16 as FromBytesEndianned>::from_bytes` (bytes.rs).  The function
begins with `assert!(bytes.len() >= 2)`: a shorter slice panics, which is
modelled by `none`. -/
def u16_fromBytes (bytes : List Nat) (endianness : Endianness) : Option Nat :=
  if bytes.length < 2 then none else some (val16 bytes endianness)

/-- `<u32 as FromBytesEndianned>::from_bytes` (bytes.rs); `none` models
the `assert!(bytes.len() >= 4)` panic. -/
def u32_fromBytes (bytes : List Nat) (endianness : Endianness) : Option Nat :=
  if bytes.length < 4 then none else some (val32 bytes endianness)

/-- `<u64 as FromBytesEndianned>::from_bytes` (bytes.rs); `none` models
the `assert!(bytes.len() >= 8)` panic. -/
def u64_fromBytes (bytes : List Nat) (endianness : Endianness) : Option Nat :=
  if bytes.length < 8 then none else some (val64 bytes endianness)

/-- Rust `u16::to_le_bytes`/`to_be_bytes`, the inverse primitive used by
the round-trip property. -/
def toBytes16 (n : Nat) (endianness : Endianness) : List Nat :=
  match endianness with
  | .Little => [n % 2 ^ 8, n / 2 ^ 8 % 2 ^ 8]
  | .Big => [n / 2 ^ 8 % 2 ^ 8, n % 2 ^ 8]

/-- Rust `u32::to_le_bytes`/`to_be_bytes`. -/
def toBytes32 (n : Nat) (endianness : Endianness) : List Nat :=
  match endianness with
  | .Little =>
      [n % 2 ^ 8, n / 2 ^ 8 % 2 ^ 8, n / 2 ^ 16 % 2 ^ 8, n / 2 ^ 24 % 2 ^ 8]
  | .Big =>
      [n / 2 ^ 24 % 2 ^ 8, n / 2 ^ 16 % 2 ^ 8, n / 2 ^ 8 % 2 ^ 8, n % 2 ^ 8]

/-- Rust `u64::to_le_bytes`/`to_be_bytes`. -/
def toBytes64 (n : Nat) (endianness : Endianness) : List Nat :=
  match endianness with
  | .Little =>
      [n % 2 ^ 8, n / 2 ^ 8 % 2 ^ 8, n / 2 ^ 16 % 2 ^ 8, n / 2 ^ 24 % 2 ^ 8,
        n / 2 ^ 32 % 2 ^ 8, n / 2 ^ 40 % 2 ^ 8, n / 2 ^ 48 % 2 ^ 8,
        n / 2 ^ 56 % 2 ^ 8]
  | .Big =>
      [n / 2 ^ 56 % 2 ^ 8, n / 2 ^ 48 % 2 ^ 8, n / 2 ^ 40 % 2 ^ 8,
        n / 2 ^ 32 % 2 ^ 8, n / 2 ^ 24 % 2 ^ 8, n / 2 ^ 16 % 2 ^ 8,
        n / 2 ^ 8 % 2 ^ 8, n % 2 ^ 8]

/-- FileType::parse_u16 (common.rs). -/
def FileType.parse_u16 (i : Nat) : Except ParseError FileType :=
  if i = 0x0000 then .ok .None
  else if i = 0x0001 then .ok .Relocatable
  else if i = 0x0002 then .ok .Executable
  else if i = 0x0003 then .ok .Shared
  else if i = 0x0004 then .ok .Core
  else if 0xff00 ≤ i then .ok (.Specific i)
  else .error (.InvalidFileType i)

/-- FileType::parse_bytes (common.rs): explicit length check, then the
primitive decode (whose assert is unreachable after the check). -/
def FileType.parse_bytes (bytes : List Nat) (endianness : Endianness) :
    Except ParseError FileType :=
  if bytes.length < 2 then .error (.InsufficientPartLength bytes.length)
  else FileType.parse_u16 (val16 bytes endianness)

/-- WordWidth::parse_byte (common.rs). -/
def WordWidth.parse_byte (b : Nat) : Except ParseError WordWidth :=
  if b = 0x01 then .ok .Width32
  else if b = 0x02 then .ok .Width64
  else .error (.InvalidWordWidth b)

/-- WordWidth::size (common.rs). -/
def WordWidth.size : WordWidth → Nat
  | .Width32 => 4
  | .Width64 => 8

/-- Endianness::parse_byte (common.rs). -/
def Endianness.parse_byte (b : Nat) : Except ParseError Endianness :=
  if b = 0x01 then .ok .Little
  else if b = 0x02 then .ok .Big
  else .error (.InvalidEndianness b)

/-- Abi::from_byte (common.rs): total, unknown codes degrade to Unknown. -/
def Abi.from_byte (b : Nat) : Abi :=
  if b = 0x00 then .SysV else if b = 0x01 then .HpUx
  else if b = 0x02 then .NetBSD else if b = 0x03 then .Linux
  else if b = 0x04 then .GnuHurd else if b = 0x06 then .Solaris
  else if b = 0x07 then .Aix else if b = 0x08 then .Irix
  else if b = 0x09 then .FreeBSD else if b = 0x0A then .Tru64
  else if b = 0x0B then .NovellModesto else if b = 0x0C then .OpenBSD
  else if b = 0x0D then .OpenVMS else if b = 0x0E then .NonStopKernel
  else if b = 0x0F then .Aros else if b = 0x10 then .FenixOS
  else if b = 0x11 then .CloudABI else if b = 0x12 then .OpenVOS
  else .Unknown

/-- Arch::from_u16 (common.rs): total, unknown codes degrade to Unknown. -/
def Arch.from_u16 (i : Nat) : Arch :=
  if i = 0x0000 then .Unspecified else if i = 0x0001 then .WE32100
  else if i = 0x0002 then .Sparc else if i = 0x0003 then .X86
  else if i = 0x0004 then .M68k else if i = 0x0005 then .M88k
  else if i = 0x0006 then .IntelMCU else if i = 0x0007 then .Intel80860
  else if i = 0x0008 then .MIPS else if i = 0x0009 then .System370
  else if i = 0x000A then .RS3000 else if i = 0x000E then .PARISC
  else if i = 0x0013 then .Intel80960 else if i = 0x0014 then .PowerPC
  else if i = 0x0015 then .PowerPC64 else if i = 0x0016 then .S390
  else if i = 0x0028 then .ARM else if i = 0x002A then .SuperH
  else if i = 0x0032 then .IA64 else if i = 0x003E then .X86_64
  else if i = 0x008C then .TMS320C6000 else if i = 0x00B7 then .AArch64
  else if i = 0x00F3 then .RISCV else if i = 0x00F7 then .BPF
  else if i = 0x0101 then .WDC65C816 else .Unknown

/-- Arch::parse_bytes (common.rs). -/
def Arch.parse_bytes (bytes : List Nat) (endianness : Endianness) :
    Except ParseError Arch :=
  if bytes.length < 2 then .error (.InsufficientPartLength bytes.length)
  else .ok (Arch.from_u16 (val16 bytes endianness))

/-- Word::parse_bytes (common.rs). -/
def Word.parse_bytes (bytes : List Nat) (word_width : WordWidth)
    (endianness : Endianness) : Except ParseError Word :=
  match word_width with
  | .Width32 =>
      if bytes.length < 4 then .error (.InsufficientPartLength bytes.length)
      else .ok (.Word32 (val32 bytes endianness))
  | .Width64 =>
      if bytes.length < 8 then .error (.InsufficientPartLength bytes.length)
      else .ok (.Word64 (val64 bytes endianness))

/-- `From<Word> for u64` (common.rs): lossless widening. -/
def Word.toU64 : Word → Nat
  | .Word32 u => u
  | .Word64 u => u

/-- The ELF file header (header.rs). -/
structure Header where
  word_width : WordWidth
  endianness : Endianness
  header_version : Nat
  os_abi : Abi
  abi_version : Nat
  file_type : FileType
  arch : Arch
  version : Nat
  entry_point : Word
  program_header_start : Word
  section_header_start : Word
  flags : Nat
  pheader_entry_size : Nat
  pheader_entries : Nat
  sheader_entry_size : Nat
  sheader_entries : Nat
  section_names_index : Nat
deriving DecidableEq, Repr

/-- Header::check_length (header.rs). -/
def Header.check_length (minimum actual : Nat) : Except ParseError Unit :=
  if actual < minimum then .error (.InsuffcientHeaderLength actual) else .ok ()

/-- Header::check_magic (header.rs): the first four bytes, read
little-endian, must equal `u32::from_le_bytes([0x7F, 0x45, 0x4C, 0x46])`
= 0x464C457F. -/
def Header.check_magic (bytes : List Nat) : Except ParseError Unit :=
  let value := val32 bytes .Little
  if value ≠ 0x464C457F then .error (.NoELF value) else .ok ()

/-- The word-width-keyed required total header length of header.rs
(`match word_width { Width32 => 52, Width64 => 64 }`). -/
def Header.required_bytes : WordWidth → Nat
  | .Width32 => 52
  | .Width64 => 64

/-- The word-width-keyed field offset table of Header::parse_bytes
(header.rs): offsets of [entry_point, pheader_start, sheader_start,
flags, header_size, pheader_entry_size, pheader_entries,
sheader_entry_size, sheader_entries, section_names_index]. -/
def Header.field_offsets : WordWidth → List Nat
  | .Width32 => [24, 28, 32, 36, 40, 42, 44, 46, 48, 50]
  | .Width64 => [24, 32, 40, 48, 52, 54, 56, 58, 60, 62]

/-- Header::parse_bytes (header.rs).  Field layout follows the two
offset tables keyed by word width; the own-size consistency check reuses
the `InsuffcientHeaderLength` error constructor, carrying the decoded
16-bit size field. -/
def Header.parse_bytes (bytes : List Nat) : Except ParseError Header :=
  match Header.check_length 52 bytes.length with
  | .error e => .error e
  | .ok _ =>
  match Header.check_magic bytes with
  | .error e => .error e
  | .ok _ =>
  match WordWidth.parse_byte (bytes.getD 4 0) with
  | .error e => .error e
  | .ok word_width =>
  let required_bytes : Nat := Header.required_bytes word_width
  match Header.check_length required_bytes bytes.length with
  | .error e => .error e
  | .ok _ =>
  match Endianness.parse_byte (bytes.getD 5 0) with
  | .error e => .error e
  | .ok endianness =>
  let header_version := bytes.getD 6 0
  let os_abi := Abi.from_byte (bytes.getD 7 0)
  let abi_version := bytes.getD 8 0
  match FileType.parse_bytes ((bytes.drop 16).take 2) endianness with
  | .error e => .error e
  | .ok file_type =>
  match Arch.parse_bytes ((bytes.drop 18).take 2) endianness with
  | .error e => .error e
  | .ok arch =>
  let version := val32 ((bytes.drop 20).take 4) endianness
  let offsets : List Nat := Header.field_offsets word_width
  match Word.parse_bytes (bytes.drop (offsets.getD 0 0)) word_width endianness with
  | .error e => .error e
  | .ok entry_point =>
  match Word.parse_bytes (bytes.drop (offsets.getD 1 0)) word_width endianness with
  | .error e => .error e
  | .ok program_header_start =>
  match Word.parse_bytes (bytes.drop (offsets.getD 2 0)) word_width endianness with
  | .error e => .error e
  | .ok section_header_start =>
  let flags := val32 (bytes.drop (offsets.getD 3 0)) endianness
  let header_size := val16 (bytes.drop (offsets.getD 4 0)) endianness
  if required_bytes ≠ header_size then
    .error (.InsuffcientHeaderLength header_size)
  else
    let pheader_entry_size := val16 (bytes.drop (offsets.getD 5 0)) endianness
    let pheader_entries := val16 (bytes.drop (offsets.getD 6 0)) endianness
    let sheader_entry_size := val16 (bytes.drop (offsets.getD 7 0)) endianness
    let sheader_entries := val16 (bytes.drop (offsets.getD 8 0)) endianness
    let section_names_index := val16 (bytes.drop (offsets.getD 9 0)) endianness
    .ok ⟨word_width, endianness, header_version, os_abi, abi_version,
      file_type, arch, version, entry_point, program_header_start,
      section_header_start, flags, pheader_entry_size, pheader_entries,
      sheader_entry_size, sheader_entries, section_names_index⟩

/-- ProgramHeaderSegmentType (program_header.rs). -/
inductive ProgramHeaderSegmentType where
  | Null | Load | Dynamic | Interp | Note | SharedLib | HeaderSegment
  | ThreadLocalStorage
  | OSSpecific (code : Nat)
  | ProcessorSpecific (code : Nat)
deriving DecidableEq, Repr

/-- ProgramHeaderSegmentType::parse_u32 (program_header.rs). -/
def ProgramHeaderSegmentType.parse_u32 (u : Nat) :
    Except ParseError ProgramHeaderSegmentType :=
  if u = 0 then .ok .Null
  else if u = 1 then .ok .Load
  else if u = 2 then .ok .Dynamic
  else if u = 3 then .ok .Interp
  else if u = 4 then .ok .Note
  else if u = 5 then .ok .SharedLib
  else if u = 6 then .ok .HeaderSegment
  else if u = 7 then .ok .ThreadLocalStorage
  else if 0x60000000 ≤ u ∧ u ≤ 0x6FFFFFFF then .ok (.OSSpecific u)
  else if 0x70000000 ≤ u ∧ u ≤ 0x7FFFFFFF then .ok (.ProcessorSpecific u)
  else .error (.InvalidProgHeaderType u)

/-- ProgramHeaderSegmentType::parse_bytes (program_header.rs). -/
def ProgramHeaderSegmentType.parse_bytes (bytes : List Nat)
    (endianness : Endianness) : Except ParseError ProgramHeaderSegmentType :=
  if bytes.length < 4 then .error (.InsufficientPartLength bytes.length)
  else ProgramHeaderSegmentType.parse_u32 (val32 bytes endianness)

/-- One program header entry (program_header.rs). -/
structure ProgramHeader where
  typ : ProgramHeaderSegmentType
  flags : Nat
  offset : Word
  vaddress : Word
  paddress : Word
  filesize : Word
  memsize : Word
  alignment : Word
deriving DecidableEq, Repr

/-- Rust `u64::is_power_of_two` (`count_ones() == 1`): n is an exact
power of two.  The argument is a u64 value, so a bounded search over the
64 possible exponents is an exact model; `isPowerOfTwo_iff` certifies
the encoding. -/
def is_power_of_two (n : Nat) : Bool :=
  (List.range 64).any fun k => n == 2 ^ k

/-- The word-width-keyed field offset table of ProgramHeader::parse_bytes
(program_header.rs): offsets of [offset, vaddress, paddress, filesize,
memsize, flags, alignment].  In the 64-bit layout `flags` sits at offset
4, directly after the segment type. -/
def ProgramHeader.field_offsets : WordWidth → List Nat
  | .Width32 => [4, 8, 12, 16, 20, 24, 28]
  | .Width64 => [8, 16, 24, 32, 40, 4, 48]

/-- The word-width-keyed minimum entry length of
ProgramHeader::parse_bytes (program_header.rs). -/
def ProgramHeader.min_size : WordWidth → Nat
  | .Width32 => 32
  | .Width64 => 56

/-- ProgramHeader::check_length (program_header.rs). -/
def ProgramHeader.check_length (expected actual : Nat) :
    Except ParseError Unit :=
  if actual < expected then .error (.InvalidProgHeaderLength actual)
  else .ok ()

/-- ProgramHeader::validate_vaddr (program_header.rs): alignment 0/1
always passes; other values must be powers of two; then the virtual
address and file offset must agree modulo the alignment.  (All three
words are first widened to u64; the debug `println!` calls have no
modelled effect.) -/
def ProgramHeader.validate_vaddr (offset addr align : Word) :
    Except ParseError Unit :=
  let a := align.toU64
  if a ≤ 1 then .ok ()
  else if ¬ is_power_of_two a then .error (.InvalidAlignment a)
  else
    let o := offset.toU64
    let normalized_addr := addr.toU64
    if normalized_addr % a = o % a then .ok ()
    else .error (.InvalidVirtualAddress addr)

/-- ProgramHeader::parse_bytes (program_header.rs): minimum 32 bytes,
then the type, then the word-width-keyed offset table (note `flags` at
offset 24 in the 32-bit layout but offset 4 in the 64-bit layout), the
full-size length check (32 or 56), all fields, and the alignment and
address-congruence validation. -/
def ProgramHeader.parse_bytes (bytes : List Nat) (word_width : WordWidth)
    (endianness : Endianness) : Except ParseError ProgramHeader :=
  match ProgramHeader.check_length 32 bytes.length with
  | .error e => .error e
  | .ok _ =>
  match ProgramHeaderSegmentType.parse_bytes bytes endianness with
  | .error e => .error e
  | .ok typ =>
  let offsets : List Nat := ProgramHeader.field_offsets word_width
  let size : Nat := ProgramHeader.min_size word_width
  match ProgramHeader.check_length size bytes.length with
  | .error e => .error e
  | .ok _ =>
  match Word.parse_bytes (bytes.drop (offsets.getD 0 0)) word_width endianness with
  | .error e => .error e
  | .ok offset =>
  match Word.parse_bytes (bytes.drop (offsets.getD 1 0)) word_width endianness with
  | .error e => .error e
  | .ok vaddress =>
  match Word.parse_bytes (bytes.drop (offsets.getD 2 0)) word_width endianness with
  | .error e => .error e
  | .ok paddress =>
  match Word.parse_bytes (bytes.drop (offsets.getD 3 0)) word_width endianness with
  | .error e => .error e
  | .ok filesize =>
  match Word.parse_bytes (bytes.drop (offsets.getD 4 0)) word_width endianness with
  | .error e => .error e
  | .ok memsize =>
  let flags := val32 (bytes.drop (offsets.getD 5 0)) endianness
  match Word.parse_bytes (bytes.drop (offsets.getD 6 0)) word_width endianness with
  | .error e => .error e
  | .ok alignment =>
  match ProgramHeader.validate_vaddr offset vaddress alignment with
  | .error e => .error e
  | .ok _ =>
  .ok ⟨typ, flags, offset, vaddress, paddress, filesize, memsize, alignment⟩

/-- SectionHeaderType::parse_u32 (section_header.rs). -/
def SectionHeaderType.parse_u32 (raw : Nat) :
    Except ParseError SectionHeaderType :=
  if raw = 0x0 then .ok .Null
  else if raw = 0x1 then .ok .ProgramBits
  else if raw = 0x2 then .ok .SymbolTable
  else if raw = 0x3 then .ok .StringTable
  else if raw = 0x4 then .ok .RelocationWithAddends
  else if raw = 0x5 then .ok .Hash
  else if raw = 0x6 then .ok .Dynamic
  else if raw = 0x7 then .ok .Note
  else if raw = 0x8 then .ok .NoData
  else if raw = 0x9 then .ok .Relocation
  else if raw = 0xA then .ok .SharedLib
  else if raw = 0xB then .ok .DynamicSymbolTable
  else if raw = 0xE then .ok .ConstructorArray
  else if raw = 0xF then .ok .DestructorArray
  else if raw = 0x10 then .ok .PreConstructorArray
  else if raw = 0x11 then .ok .Group
  else if raw = 0x12 then .ok .SectionIndices
  else if raw = 0x13 then .ok .Num
  else if 0x60000000 ≤ raw then .ok (.OsSpecific raw)
  else .error (.InvalidSectionHeaderType raw)

/-- SectionHeaderType::parse_bytes (section_header.rs): length check then
decode. -/
def SectionHeaderType.parse_bytes (bytes : List Nat)
    (endianness : Endianness) : Except ParseError SectionHeaderType :=
  if bytes.length < 4 then .error (.InsufficientPartLength bytes.length)
  else SectionHeaderType.parse_u32 (val32 bytes endianness)

/-- The union of all section header flag bits declared in the
`bitflags!` block of section_header.rs (ORDERED and EXCLUDE lie inside
MASK_OS). -/
def sectionHeaderFlagsMask : Nat := 0xFFF007F7

/-- SectionHeaderFlags::parse_u64 (section_header.rs):
`Self::from_bits(raw)` succeeds exactly when no bit outside the declared
union is set. -/
def SectionHeaderFlags.parse_u64 (raw : Nat) : Except ParseError Nat :=
  if Nat.land raw sectionHeaderFlagsMask = raw then .ok raw
  else .error (.InvalidSectionHeaderFlags raw)

/-- SectionHeaderFlags::parse_bytes (section_header.rs): a 32- or 64-bit
read depending on word width, then the bitmask validation. -/
def SectionHeaderFlags.parse_bytes (bytes : List Nat)
    (word_width : WordWidth) (endianness : Endianness) :
    Except ParseError Nat :=
  if bytes.length < word_width.size then
    .error (.InsufficientPartLength bytes.length)
  else
    let raw :=
      match word_width with
      | .Width32 => val32 bytes endianness
      | .Width64 => val64 bytes endianness
    SectionHeaderFlags.parse_u64 raw

/-- A raw section header entry, name not yet resolved
(section_header.rs). -/
structure UnnamedSectionHeader where
  name_index : Nat
  typ : SectionHeaderType
  flags : Nat
  address : Word
  offset : Word
  size : Word
  link : Nat
  info : Nat
  align : Word
  entry_size : Word
deriving DecidableEq, Repr

/-- A section header with its name resolved (section_header.rs).  The
name is kept as its UTF-8 byte content (UTF-8 decoding is injective, so
this is a faithful representation of the Rust `String`). -/
structure SectionHeader where
  name : List Nat
  typ : SectionHeaderType
  flags : Nat
  address : Word
  offset : Word
  size : Word
  link : Nat
  info : Nat
  align : Word
  entry_size : Word
deriving DecidableEq, Repr

/-- The word-width-keyed minimum entry length of
UnnamedSectionHeader::parse_bytes (section_header.rs). -/
def UnnamedSectionHeader.expected_length : WordWidth → Nat
  | .Width32 => 40
  | .Width64 => 64

/-- The word-width-keyed field offset table of
UnnamedSectionHeader::parse_bytes (section_header.rs): offsets of
[name_index, typ, flags, address, offset, size, link, info, align,
entry_size]. -/
def UnnamedSectionHeader.field_offsets : WordWidth → List Nat
  | .Width32 => [0, 4, 8, 12, 16, 20, 24, 28, 32, 36]
  | .Width64 => [0, 4, 8, 16, 24, 32, 40, 44, 48, 56]

/-- UnnamedSectionHeader::check_length (section_header.rs). -/
def UnnamedSectionHeader.check_length (expected actual : Nat) :
    Except ParseError Unit :=
  if actual < expected then .error (.InsufficientSectionHeaderLength actual)
  else .ok ()

/-- UnnamedSectionHeader::parse_bytes (section_header.rs): length check
(40 or 64 bytes), then all fields at word-width-keyed offsets, with the
alignment validated to be 0 or a power of two before `entry_size` is
read. -/
def UnnamedSectionHeader.parse_bytes (bytes : List Nat)
    (word_width : WordWidth) (endianness : Endianness) :
    Except ParseError UnnamedSectionHeader :=
  let expected_length : Nat := UnnamedSectionHeader.expected_length word_width
  match UnnamedSectionHeader.check_length expected_length bytes.length with
  | .error e => .error e
  | .ok _ =>
  let offsets : List Nat := UnnamedSectionHeader.field_offsets word_width
  let name_index := val32 (bytes.drop (offsets.getD 0 0)) endianness
  match SectionHeaderType.parse_bytes (bytes.drop (offsets.getD 1 0)) endianness with
  | .error e => .error e
  | .ok typ =>
  match SectionHeaderFlags.parse_bytes (bytes.drop (offsets.getD 2 0)) word_width endianness with
  | .error e => .error e
  | .ok flags =>
  match Word.parse_bytes (bytes.drop (offsets.getD 3 0)) word_width endianness with
  | .error e => .error e
  | .ok address =>
  match Word.parse_bytes (bytes.drop (offsets.getD 4 0)) word_width endianness with
  | .error e => .error e
  | .ok offset =>
  match Word.parse_bytes (bytes.drop (offsets.getD 5 0)) word_width endianness with
  | .error e => .error e
  | .ok size =>
  let link := val32 (bytes.drop (offsets.getD 6 0)) endianness
  let info := val32 (bytes.drop (offsets.getD 7 0)) endianness
  match Word.parse_bytes (bytes.drop (offsets.getD 8 0)) word_width endianness with
  | .error e => .error e
  | .ok align =>
  if align.toU64 ≠ 0 ∧ ¬ is_power_of_two align.toU64 then
    .error (.InvalidAlignment align.toU64)
  else
  match Word.parse_bytes (bytes.drop (offsets.getD 9 0)) word_width endianness with
  | .error e => .error e
  | .ok entry_size =>
  .ok ⟨name_index, typ, flags, address, offset, size, link, info, align,
    entry_size⟩

/-- `iter().position(|byte| *byte == 0)` on a byte slice: index of the
first NUL, if any. -/
def position0 : List Nat → Option Nat
  | [] => none
  | b :: rest => if b = 0 then some 0 else (position0 rest).map (· + 1)

/-- Continuation byte predicate of UTF-8 (0x80..=0xBF). -/
def utf8Cont (c : Nat) : Bool := 0x80 ≤ c && c ≤ 0xBF

/-- UTF-8 validity of a byte sequence, as checked by Rust's
`CString::into_string` (RFC 3629: no surrogates, no overlong forms, max
U+10FFFF). -/
def utf8Valid : List Nat → Bool
  | [] => true
  | b :: rest =>
    if b < 0x80 then utf8Valid rest
    else if 0xC2 ≤ b ∧ b ≤ 0xDF then
      match rest with
      | c1 :: rest1 => utf8Cont c1 && utf8Valid rest1
      | [] => false
    else if b = 0xE0 then
      match rest with
      | c1 :: c2 :: rest2 =>
          (0xA0 ≤ c1 && c1 ≤ 0xBF) && utf8Cont c2 && utf8Valid rest2
      | _ => false
    else if b = 0xED then
      match rest with
      | c1 :: c2 :: rest2 =>
          (0x80 ≤ c1 && c1 ≤ 0x9F) && utf8Cont c2 && utf8Valid rest2
      | _ => false
    else if (0xE1 ≤ b ∧ b ≤ 0xEC) ∨ (0xEE ≤ b ∧ b ≤ 0xEF) then
      match rest with
      | c1 :: c2 :: rest2 => utf8Cont c1 && utf8Cont c2 && utf8Valid rest2
      | _ => false
    else if b = 0xF0 then
      match rest with
      | c1 :: c2 :: c3 :: rest3 =>
          (0x90 ≤ c1 && c1 ≤ 0xBF) && utf8Cont c2 && utf8Cont c3
            && utf8Valid rest3
      | _ => false
    else if 0xF1 ≤ b ∧ b ≤ 0xF3 then
      match rest with
      | c1 :: c2 :: c3 :: rest3 =>
          utf8Cont c1 && utf8Cont c2 && utf8Cont c3 && utf8Valid rest3
      | _ => false
    else if b = 0xF4 then
      match rest with
      | c1 :: c2 :: c3 :: rest3 =>
          (0x80 ≤ c1 && c1 ≤ 0x8F) && utf8Cont c2 && utf8Cont c3
            && utf8Valid rest3
      | _ => false
    else false

/-- UnnamedSectionHeader::to_named (section_header.rs).  The slice
expression `&names_table[index..]` panics when `index` exceeds the table
length — modelled by `none`.  Otherwise the bytes from `name_index` are
scanned for the first NUL (`UnterminatedString` if none), and the bytes
before it become the name if they are valid UTF-8 (`InvalidSectionName`
otherwise; the `CString::from_vec_with_nul(..).expect(..)` cannot fail
because the chosen NUL is the first one). -/
def UnnamedSectionHeader.to_named (self : UnnamedSectionHeader)
    (names_table : List Nat) : Option (Except ParseError SectionHeader) :=
  let index := self.name_index
  if names_table.length < index then none
  else
    let name_bytes := names_table.drop index
    match position0 name_bytes with
    | none => some (.error .UnterminatedString)
    | some null_index =>
        let name := name_bytes.take null_index
        if utf8Valid name then
          some (.ok ⟨name, self.typ, self.flags, self.address, self.offset,
            self.size, self.link, self.info, self.align, self.entry_size⟩)
        else some (.error .InvalidSectionName)

/-- MetadataParseError (metadata.rs); the `std::io::Error` payload is
dropped. -/
inductive MetadataParseError where
  | InvalidELF (e : ParseError)
  | IOError
deriving DecidableEq, Repr

/-- Common shape of Metadata::parse_program_headers and
Metadata::parse_section_headers (metadata.rs): map a per-entry parser
over the entry indices and collect, short-circuiting on the first error.
The entry offset `i * entry_size` is computed in `u16` arithmetic, hence
the `% 2 ^ 16`; the slice `&raw[offset..]` panics when the offset
exceeds the buffer length (`none`). -/
def Metadata.parse_entries_aux {α : Type}
    (parse : List Nat → Except ParseError α) (entry_size : Nat)
    (buf : List Nat) : List Nat → Option (Except MetadataParseError (List α))
  | [] => some (.ok [])
  | i :: rest =>
    let offset := i * entry_size % 2 ^ 16
    if buf.length < offset then none
    else
      match parse (buf.drop offset) with
      | .error e => some (.error (.InvalidELF e))
      | .ok x =>
        match Metadata.parse_entries_aux parse entry_size buf rest with
        | none => none
        | some (.error e) => some (.error e)
        | some (.ok xs) => some (.ok (x :: xs))

/-- Metadata::parse_program_headers (metadata.rs): decode
`header.program_header_entry_count()` entries at
`entry_size`-strided offsets of the buffer. -/
def Metadata.parse_program_headers (header : Header)
    (raw_pheaders : List Nat) :
    Option (Except MetadataParseError (List ProgramHeader)) :=
  Metadata.parse_entries_aux
    (fun s => ProgramHeader.parse_bytes s header.word_width header.endianness)
    header.pheader_entry_size raw_pheaders (List.range header.pheader_entries)

/-- Metadata::parse_section_headers (metadata.rs). -/
def Metadata.parse_section_headers (header : Header)
    (raw_sheaders : List Nat) :
    Option (Except MetadataParseError (List UnnamedSectionHeader)) :=
  Metadata.parse_entries_aux
    (fun s =>
      UnnamedSectionHeader.parse_bytes s header.word_width header.endianness)
    header.sheader_entry_size raw_sheaders
    (List.range header.sheader_entries)

/-- A seek to `off` followed by `read_exact` of `n` bytes on a byte
source of content `file` (metadata.rs): seeking past the end succeeds,
but `read_exact` fails when fewer than `n` bytes remain. -/
def Metadata.readExact (file : List Nat) (off n : Nat) :
    Except MetadataParseError (List Nat) :=
  if off + n ≤ file.length then .ok ((file.drop off).take n)
  else .error .IOError

/-- The `unnamed.into_iter().map(|h| h.to_named(buf)).collect()` step of
Metadata::parse_named_section_headers_from_file, short-circuiting on the
first error and propagating a panic from `to_named`. -/
def Metadata.to_named_all (buf : List Nat) :
    List UnnamedSectionHeader → Option (Except ParseError (List SectionHeader))
  | [] => some (.ok [])
  | u :: rest =>
    match u.to_named buf with
    | none => none
    | some (.error e) => some (.error e)
    | some (.ok s) =>
      match Metadata.to_named_all buf rest with
      | none => none
      | some (.error e) => some (.error e)
      | some (.ok ss) => some (.ok (s :: ss))

/-- Metadata::parse_named_section_headers_from_file (metadata.rs): the
string-table section is the one at array index
`header.section_names_index()`; an out-of-range index yields an empty
result with no error, a non-StringTable section at that index is
`InvalidSectionNameTableType`, and otherwise the table bytes are read
from the source and every name is resolved. -/
def Metadata.parse_named_section_headers_from_file (header : Header)
    (unnamed_section_headers : List UnnamedSectionHeader)
    (file : List Nat) :
    Option (Except MetadataParseError (List SectionHeader)) :=
  match unnamed_section_headers[header.section_names_index]? with
  | none => some (.ok [])
  | some sheader =>
    if sheader.typ ≠ .StringTable then
      some (.error (.InvalidELF (.InvalidSectionNameTableType sheader.typ)))
    else
      match Metadata.readExact file sheader.offset.toU64 sheader.size.toU64 with
      | .error e => some (.error e)
      | .ok buf =>
        match Metadata.to_named_all buf unnamed_section_headers with
        | none => none
        | some (.error e) => some (.error (.InvalidELF e))
        | some (.ok ss) => some (.ok ss)

/-- The canonical 52-byte 32-bit little-endian header fixture
(VALID_HEADER_DATA_32 of header.rs's tests). -/
def VALID_HEADER_DATA_32 : List Nat :=
  [0x7F, 0x45, 0x4C, 0x46, 0x01, 0x01, 0x01, 0x03, 0x01,
   0x00, 0x00, 0x00, 0x00, 0x00, 0x00, 0x00,
   0x02, 0x00, 0x3E, 0x00,
   0x01, 0xFF, 0x00, 0x00,
   0x00, 0x00, 0x00, 0xF0,
   0x34, 0x00, 0x00, 0x00,
   0x00, 0x00, 0x30, 0x00,
   0x4F, 0xF1, 0x97, 0xC4,
   0x34, 0x00,
   0x20, 0x00,
   0x01, 0x00,
   0x10, 0x00,
   0x00, 0x01,
   0x30, 0x00]

/-- Fixture for the 16-bit offset-arithmetic overflow in
Metadata::parse_program_headers: a 32-bit little-endian header declaring
3 program header entries of entry size 0x8000. -/
def c5Header : Header :=
  ⟨.Width32, .Little, 0, .Unknown, 0, .None, .Unspecified, 0, .Word32 0,
    .Word32 0, .Word32 0, 0, 0x8000, 3, 0, 0, 0⟩

/-- Fixture buffer of length 3 * 0x8000 = 98304: all zero except byte
0x10000, which starts a Load-typed entry. -/
def c5Buf : List Nat := List.replicate 65536 0 ++ 1 :: List.replicate 32767 0

/-- The all-zero (Null) program header entry. -/
def c5Null : ProgramHeader :=
  ⟨.Null, 0, .Word32 0, .Word32 0, .Word32 0, .Word32 0, .Word32 0,
    .Word32 0⟩

/-- The Load-typed but otherwise zero program header entry. -/
def c5Load : ProgramHeader :=
  ⟨.Load, 0, .Word32 0, .Word32 0, .Word32 0, .Word32 0, .Word32 0,
    .Word32 0⟩

/-! Theorems about the claims. -/

theorem isPowerOfTwo_iff (n : Nat) (hn : n < 2 ^ 64) :
    is_power_of_two n = true ↔ ∃ k, n = 2 ^ k := by
  simp only [is_power_of_two, List.any_eq_true, List.mem_range, beq_iff_eq]
  constructor
  · rintro ⟨k, _, rfl⟩
    exact ⟨k, rfl⟩
  · rintro ⟨k, rfl⟩
    refine ⟨k, ?_, rfl⟩
    by_contra hk
    exact absurd hn (not_lt.mpr (Nat.pow_le_pow_right (by norm_num)
      (not_lt.mp hk)))


/-- C7, counterexample: the primitive decoders of bytes.rs do not return
an `InsufficientLength` error on short slices — they `assert!` the
length and panic (modelled by `none`), at each of the three widths. -/
theorem c7_counterexample :
    u16_fromBytes [0x05] .Little = none ∧
    u32_fromBytes [1, 2, 3] .Big = none ∧
    u64_fromBytes [0, 1, 2, 3, 4, 5, 6] .Little = none := by decide

/-- C7, amended: for every width in {16, 32, 64} and every endianness,
the primitive decoder panics (assertion failure) on a slice shorter than
width/8 bytes; on longer slices it returns the unsigned integer read
from the first width/8 bytes in the given byte order (trailing bytes are
ignored).  The checked failure carrying the actual length,
`InsufficientPartLength(actual)`, is raised by the callers — e.g.
Word::parse_bytes — before delegating to the primitive. -/
theorem c7_primitive_decoder (l : List Nat) (e : Endianness) :
    (l.length < 2 → u16_fromBytes l e = none) ∧
    (l.length < 4 → u32_fromBytes l e = none) ∧
    (l.length < 8 → u64_fromBytes l e = none) ∧
    (∀ b0 b1 rest,
      u16_fromBytes (b0 :: b1 :: rest) .Little = some (b0 + 2 ^ 8 * b1) ∧
      u16_fromBytes (b0 :: b1 :: rest) .Big = some (b1 + 2 ^ 8 * b0)) ∧
    (∀ b0 b1 b2 b3 rest,
      u32_fromBytes (b0 :: b1 :: b2 :: b3 :: rest) .Little =
        some (b0 + 2 ^ 8 * b1 + 2 ^ 16 * b2 + 2 ^ 24 * b3) ∧
      u32_fromBytes (b0 :: b1 :: b2 :: b3 :: rest) .Big =
        some (b3 + 2 ^ 8 * b2 + 2 ^ 16 * b1 + 2 ^ 24 * b0)) ∧
    (∀ b0 b1 b2 b3 b4 b5 b6 b7 rest,
      u64_fromBytes (b0 :: b1 :: b2 :: b3 :: b4 :: b5 :: b6 :: b7 :: rest)
          .Little =
        some (b0 + 2 ^ 8 * b1 + 2 ^ 16 * b2 + 2 ^ 24 * b3 + 2 ^ 32 * b4
          + 2 ^ 40 * b5 + 2 ^ 48 * b6 + 2 ^ 56 * b7) ∧
      u64_fromBytes (b0 :: b1 :: b2 :: b3 :: b4 :: b5 :: b6 :: b7 :: rest)
          .Big =
        some (b7 + 2 ^ 8 * b6 + 2 ^ 16 * b5 + 2 ^ 24 * b4 + 2 ^ 32 * b3
          + 2 ^ 40 * b2 + 2 ^ 48 * b1 + 2 ^ 56 * b0)) ∧
    (∀ ww : WordWidth, l.length < ww.size →
      Word.parse_bytes l ww e = .error (.InsufficientPartLength l.length)) := by
  refine ⟨?_, ?_, ?_, ?_, ?_, ?_, ?_⟩
  · intro h; simp [u16_fromBytes, h]
  · intro h; simp [u32_fromBytes, h]
  · intro h; simp [u64_fromBytes, h]
  · intro b0 b1 rest
    constructor <;> simp [u16_fromBytes, val16]
  · intro b0 b1 b2 b3 rest
    constructor <;> simp [u32_fromBytes, val32]
  · intro b0 b1 b2 b3 b4 b5 b6 b7 rest
    constructor <;> simp [u64_fromBytes, val64]
  · intro ww h
    cases ww <;> simp_all [Word.parse_bytes, WordWidth.size]

/-- C7, witness for the amended theorem at concrete inputs. -/
theorem c7_witness :
    u16_fromBytes [7] .Big = none ∧
    u16_fromBytes [3, 4, 9] .Little = some (3 + 2 ^ 8 * 4) ∧
    Word.parse_bytes [1, 2, 3] .Width32 .Little =
      .error (.InsufficientPartLength 3) :=
  ⟨(c7_primitive_decoder [7] .Big).1 (by decide),
    ((c7_primitive_decoder [3, 4, 9] .Little).2.2.2.1 3 4 [9]).1,
    (c7_primitive_decoder [1, 2, 3] .Little).2.2.2.2.2.2 .Width32 (by decide)⟩

/-- C9: on exact-width slices of genuine bytes, each primitive decode is
inverted by re-encoding in the same byte order, and decoding the
encoding of any integer of that width yields the integer back, for both
endiannesses and all three widths. -/
theorem c9_round_trip (e : Endianness) :
    (∀ b0 b1, b0 < 256 → b1 < 256 →
      (u16_fromBytes [b0, b1] e).map (toBytes16 · e) = some [b0, b1]) ∧
    (∀ n, n < 2 ^ 16 → u16_fromBytes (toBytes16 n e) e = some n) ∧
    (∀ b0 b1 b2 b3, b0 < 256 → b1 < 256 → b2 < 256 → b3 < 256 →
      (u32_fromBytes [b0, b1, b2, b3] e).map (toBytes32 · e) =
        some [b0, b1, b2, b3]) ∧
    (∀ n, n < 2 ^ 32 → u32_fromBytes (toBytes32 n e) e = some n) ∧
    (∀ b0 b1 b2 b3 b4 b5 b6 b7, b0 < 256 → b1 < 256 → b2 < 256 →
      b3 < 256 → b4 < 256 → b5 < 256 → b6 < 256 → b7 < 256 →
      (u64_fromBytes [b0, b1, b2, b3, b4, b5, b6, b7] e).map
          (toBytes64 · e) =
        some [b0, b1, b2, b3, b4, b5, b6, b7]) ∧
    (∀ n, n < 2 ^ 64 → u64_fromBytes (toBytes64 n e) e = some n) := by
  refine ⟨?_, ?_, ?_, ?_, ?_, ?_⟩
  · intro b0 b1 h0 h1
    cases e <;>
      (simp [u16_fromBytes, val16, toBytes16, List.cons.injEq]; omega)
  · intro n hn
    cases e <;> (simp [u16_fromBytes, val16, toBytes16]; omega)
  · intro b0 b1 b2 b3 h0 h1 h2 h3
    cases e <;>
      (simp [u32_fromBytes, val32, toBytes32, List.cons.injEq]; omega)
  · intro n hn
    cases e <;> (simp [u32_fromBytes, val32, toBytes32]; omega)
  · intro b0 b1 b2 b3 b4 b5 b6 b7 h0 h1 h2 h3 h4 h5 h6 h7
    cases e <;>
      (simp [u64_fromBytes, val64, toBytes64, List.cons.injEq]; omega)
  · intro n hn
    cases e <;> (simp [u64_fromBytes, val64, toBytes64]; omega)

/-- C9, witness at concrete inputs. -/
theorem c9_witness :
    (u16_fromBytes [0xFF, 0xE3] .Little).map (toBytes16 · .Little) =
      some [0xFF, 0xE3] ∧
    u32_fromBytes (toBytes32 0x1F72D4E3 .Big) .Big = some 0x1F72D4E3 :=
  ⟨(c9_round_trip .Little).1 0xFF 0xE3 (by decide) (by decide),
    (c9_round_trip .Big).2.2.2.1 0x1F72D4E3 (by decide)⟩

/-- C8: for every 16-bit code, FileType decoding maps 0..4 to the five
named variants (injectively), maps codes ≥ 0xFF00 to `Specific(code)`,
and rejects everything else with `InvalidFileType(code)`; and for either
endianness, decoding the two-byte encoding of the code agrees with the
decode of the code itself. -/
theorem c8_file_type (c : Nat) (hc : c < 2 ^ 16) :
    (c = 0 → FileType.parse_u16 c = .ok .None) ∧
    (c = 1 → FileType.parse_u16 c = .ok .Relocatable) ∧
    (c = 2 → FileType.parse_u16 c = .ok .Executable) ∧
    (c = 3 → FileType.parse_u16 c = .ok .Shared) ∧
    (c = 4 → FileType.parse_u16 c = .ok .Core) ∧
    (0xFF00 ≤ c → FileType.parse_u16 c = .ok (.Specific c)) ∧
    (5 ≤ c → c < 0xFF00 →
      FileType.parse_u16 c = .error (.InvalidFileType c)) ∧
    (c ≤ 4 → ∀ c' ≤ 4, FileType.parse_u16 c = FileType.parse_u16 c' →
      c = c') ∧
    (∀ e, FileType.parse_bytes (toBytes16 c e) e = FileType.parse_u16 c) := by
  refine ⟨?_, ?_, ?_, ?_, ?_, ?_, ?_, ?_, ?_⟩
  · rintro rfl; decide
  · rintro rfl; decide
  · rintro rfl; decide
  · rintro rfl; decide
  · rintro rfl; decide
  · intro h
    simp only [FileType.parse_u16]
    have h0 : ¬ c = 0 := by omega
    have h1 : ¬ c = 1 := by omega
    have h2 : ¬ c = 2 := by omega
    have h3 : ¬ c = 3 := by omega
    have h4 : ¬ c = 4 := by omega
    simp [h0, h1, h2, h3, h4, h]
  · intro h5 hub
    simp only [FileType.parse_u16]
    have h0 : ¬ c = 0 := by omega
    have h1 : ¬ c = 1 := by omega
    have h2 : ¬ c = 2 := by omega
    have h3 : ¬ c = 3 := by omega
    have h4 : ¬ c = 4 := by omega
    have hf : ¬ 0xFF00 ≤ c := by omega
    simp [h0, h1, h2, h3, h4, hf]
  · intro hcc c' hc' heq
    interval_cases c <;> interval_cases c' <;> first
      | rfl
      | (exfalso; revert heq; decide)
  · intro e
    have hv : val16 (toBytes16 c e) e = c := by
      cases e <;> (simp [val16, toBytes16]; omega)
    have hl : (toBytes16 c e).length = 2 := by cases e <;> rfl
    simp [FileType.parse_bytes, hl, hv]

/-- C8, witness at concrete codes: 0xFF9D maps to `Specific(0xFF9D)` in
both byte orders and 0xFEFF is `InvalidFileType(0xFEFF)`. -/
theorem c8_witness :
    FileType.parse_u16 0xFF9D = .ok (.Specific 0xFF9D) ∧
    FileType.parse_bytes (toBytes16 0xFF9D .Little) .Little =
      FileType.parse_u16 0xFF9D ∧
    FileType.parse_bytes (toBytes16 0xFF9D .Big) .Big =
      FileType.parse_u16 0xFF9D ∧
    FileType.parse_u16 0xFEFF = .error (.InvalidFileType 0xFEFF) ∧
    FileType.parse_u16 2 = .ok .Executable :=
  ⟨(c8_file_type 0xFF9D (by decide)).2.2.2.2.2.1 (by decide),
    (c8_file_type 0xFF9D (by decide)).2.2.2.2.2.2.2.2 .Little,
    (c8_file_type 0xFF9D (by decide)).2.2.2.2.2.2.2.2 .Big,
    (c8_file_type 0xFEFF (by decide)).2.2.2.2.2.2.1 (by decide) (by decide),
    (c8_file_type 2 (by decide)).2.2.1 rfl⟩

/-- C2: the alignment validation of ProgramHeader::parse_bytes.
Alignment 0 or 1 always passes; an alignment greater than 1 that is not
a power of two fails with `InvalidAlignment` carrying the (widened)
alignment; for a power of two greater than 1 validation succeeds exactly
when the virtual address and the file offset agree modulo the alignment,
failing with `InvalidVirtualAddress` carrying the address otherwise.
The final conjuncts lift this to parse_bytes: once every field has
decoded, the parse result is exactly the validation verdict, so the
parse succeeds iff the congruence holds; and any successful parse has
passed validation on its own fields. -/
theorem c2_alignment_validation (offset addr align : Word)
    (h64 : align.toU64 < 2 ^ 64) :
    (align.toU64 = 0 ∨ align.toU64 = 1 →
      ProgramHeader.validate_vaddr offset addr align = .ok ()) ∧
    (1 < align.toU64 → ¬ (∃ k, align.toU64 = 2 ^ k) →
      ProgramHeader.validate_vaddr offset addr align =
        .error (.InvalidAlignment align.toU64)) ∧
    (1 < align.toU64 → (∃ k, align.toU64 = 2 ^ k) →
      (ProgramHeader.validate_vaddr offset addr align = .ok () ↔
        addr.toU64 % align.toU64 = offset.toU64 % align.toU64) ∧
      (addr.toU64 % align.toU64 ≠ offset.toU64 % align.toU64 →
        ProgramHeader.validate_vaddr offset addr align =
          .error (.InvalidVirtualAddress addr))) ∧
    (∀ (bytes : List Nat) (ww : WordWidth) (e : Endianness)
        (typ : ProgramHeaderSegmentType) (pa fs ms : Word),
      ProgramHeader.min_size ww ≤ bytes.length →
      ProgramHeaderSegmentType.parse_bytes bytes e = .ok typ →
      Word.parse_bytes
        (bytes.drop ((ProgramHeader.field_offsets ww).getD 0 0)) ww e =
        .ok offset →
      Word.parse_bytes
        (bytes.drop ((ProgramHeader.field_offsets ww).getD 1 0)) ww e =
        .ok addr →
      Word.parse_bytes
        (bytes.drop ((ProgramHeader.field_offsets ww).getD 2 0)) ww e =
        .ok pa →
      Word.parse_bytes
        (bytes.drop ((ProgramHeader.field_offsets ww).getD 3 0)) ww e =
        .ok fs →
      Word.parse_bytes
        (bytes.drop ((ProgramHeader.field_offsets ww).getD 4 0)) ww e =
        .ok ms →
      Word.parse_bytes
        (bytes.drop ((ProgramHeader.field_offsets ww).getD 6 0)) ww e =
        .ok align →
      ProgramHeader.parse_bytes bytes ww e =
        Except.map
          (fun _ => (⟨typ,
            val32 (bytes.drop ((ProgramHeader.field_offsets ww).getD 5 0)) e,
            offset, addr, pa, fs, ms, align⟩ : ProgramHeader))
          (ProgramHeader.validate_vaddr offset addr align)) ∧
    (∀ (bytes : List Nat) (ww : WordWidth) (e : Endianness)
        (ph : ProgramHeader),
      ProgramHeader.parse_bytes bytes ww e = .ok ph →
      ProgramHeader.validate_vaddr ph.offset ph.vaddress ph.alignment =
        .ok ()) := by
  refine ⟨?_, ?_, ?_, ?_, ?_⟩
  · intro h
    have ha : align.toU64 ≤ 1 := by omega
    simp [ProgramHeader.validate_vaddr, ha]
  · intro hgt hno
    have ha : ¬ align.toU64 ≤ 1 := by omega
    have hb : is_power_of_two align.toU64 = false := by
      by_contra hb
      exact hno ((isPowerOfTwo_iff align.toU64 h64).mp
        (eq_true_of_ne_false (fun hf => hb hf)))
    simp [ProgramHeader.validate_vaddr, ha, hb]
  · intro hgt hpow
    have ha : ¬ align.toU64 ≤ 1 := by omega
    have hb : is_power_of_two align.toU64 = true :=
      (isPowerOfTwo_iff align.toU64 h64).mpr hpow
    constructor
    · constructor
      · intro hok
        by_contra hne
        simp [ProgramHeader.validate_vaddr, ha, hb, hne] at hok
      · intro heq
        simp [ProgramHeader.validate_vaddr, ha, hb, heq]
    · intro hne
      simp [ProgramHeader.validate_vaddr, ha, hb, hne]
  · intro bytes ww e typ pa fs ms hlen htyp h0 h1 h2 h3 h4 h6
    have h32 : ¬ bytes.length < 32 := by
      cases ww <;> simp [ProgramHeader.min_size] at hlen <;> omega
    have hsz : ¬ bytes.length < ProgramHeader.min_size ww :=
      Nat.not_lt.mpr hlen
    simp only [ProgramHeader.parse_bytes, ProgramHeader.check_length,
      if_neg h32, if_neg hsz, htyp, h0, h1, h2, h3, h4, h6]
    cases hval : ProgramHeader.validate_vaddr offset addr align <;>
      simp [Except.map]
  · intro bytes ww e ph hph
    simp only [ProgramHeader.parse_bytes] at hph
    repeat' split at hph
    all_goals simp_all
    next hval =>
      cases hph
      simpa using hval

/-- C2, witness: alignment 8 with congruent address and offset passes;
alignment 15 fails as not a power of two; alignment 2 with incongruent
address and offset fails with the address. -/
theorem c2_witness :
    ProgramHeader.validate_vaddr (.Word32 0x38) (.Word32 0x445C0000)
      (.Word32 8) = .ok () ∧
    ProgramHeader.validate_vaddr (.Word32 0x38) (.Word32 0x445C0000)
      (.Word32 15) = .error (.InvalidAlignment 15) ∧
    ProgramHeader.validate_vaddr (.Word32 0x38) (.Word32 0x445C0001)
      (.Word32 2) = .error (.InvalidVirtualAddress (.Word32 0x445C0001)) :=
  ⟨(((c2_alignment_validation (.Word32 0x38) (.Word32 0x445C0000)
        (.Word32 8) (by decide)).2.2.1 (by decide)
        ⟨3, by decide⟩).1).mpr (by decide),
    (c2_alignment_validation (.Word32 0x38) (.Word32 0x445C0000)
        (.Word32 15) (by decide)).2.1 (by decide)
        (by
          rintro ⟨k, hk⟩
          have h15 : (15 : Nat) = 2 ^ k := hk
          have hub : 2 ^ k ≤ 15 := le_of_eq h15.symm
          have hk3 : k ≤ 3 := by
            by_contra h
            have h2 : 2 ^ 4 ≤ 2 ^ k :=
              Nat.pow_le_pow_right (by norm_num) (by omega)
            exact absurd (le_trans h2 hub) (by norm_num)
          interval_cases k <;> norm_num at h15),
    (c2_alignment_validation (.Word32 0x38) (.Word32 0x445C0001)
        (.Word32 2) (by decide)).2.2.1 (by decide) ⟨1, by decide⟩ |>.2
        (by decide)⟩

/-- C4: locating the string-table section for name resolution.  An
out-of-range `section_names_index` yields an empty resolved-section list
with no error (resolution is skipped before any I/O); an in-range index
whose section is not a StringTable fails with
`InvalidSectionNameTableType` carrying that section's actual type. -/
theorem c4_name_table_lookup (h : Header)
    (unnamed : List UnnamedSectionHeader) (file : List Nat) :
    (unnamed.length ≤ h.section_names_index →
      Metadata.parse_named_section_headers_from_file h unnamed file =
        some (.ok [])) ∧
    (∀ sh, unnamed[h.section_names_index]? = some sh →
      sh.typ ≠ .StringTable →
      Metadata.parse_named_section_headers_from_file h unnamed file =
        some (.error (.InvalidELF (.InvalidSectionNameTableType sh.typ)))) := by
  constructor
  · intro hrange
    simp [Metadata.parse_named_section_headers_from_file,
      List.getElem?_eq_none hrange]
  · intro sh hsh hne
    simp [Metadata.parse_named_section_headers_from_file, hsh, hne]

/-- C4, witness: a header whose name-table index 5 is out of range for a
one-section list gives an empty result; index 0 naming a ProgramBits
section gives the type error. -/
theorem c4_witness :
    Metadata.parse_named_section_headers_from_file
      ⟨.Width32, .Little, 0, .Unknown, 0, .None, .Unspecified, 0, .Word32 0,
        .Word32 0, .Word32 0, 0, 0, 0, 0, 0, 5⟩
      [⟨0, .ProgramBits, 0, .Word32 0, .Word32 0, .Word32 0, 0, 0, .Word32 0,
        .Word32 0⟩] [] = some (.ok []) ∧
    Metadata.parse_named_section_headers_from_file
      ⟨.Width32, .Little, 0, .Unknown, 0, .None, .Unspecified, 0, .Word32 0,
        .Word32 0, .Word32 0, 0, 0, 0, 0, 0, 0⟩
      [⟨0, .ProgramBits, 0, .Word32 0, .Word32 0, .Word32 0, 0, 0, .Word32 0,
        .Word32 0⟩] [] =
      some (.error (.InvalidELF
        (.InvalidSectionNameTableType .ProgramBits))) :=
  ⟨(c4_name_table_lookup _ _ _).1 (by decide),
    (c4_name_table_lookup _ _ _).2
      ⟨0, .ProgramBits, 0, .Word32 0, .Word32 0, .Word32 0, 0, 0, .Word32 0,
        .Word32 0⟩ (by decide) (by decide)⟩

/-- C1, counterexample: the 32-bit fixture with its own-size field set
to 53 fails, but with `InsuffcientHeaderLength(53)` — there is no
`InvalidHeaderSize` variant in the error type of common.rs; the check
reuses the insufficient-length constructor.  The slice length is 52, so
the carried value is the decoded own_size, not the slice length. -/
theorem c1_counterexample :
    Header.parse_bytes (VALID_HEADER_DATA_32.set 40 0x35) =
      .error (.InsuffcientHeaderLength 53) ∧
    (VALID_HEADER_DATA_32.set 40 0x35).length = 52 := by decide

/-- C1, amended: whenever the slice is at least as long as required and
every field up to the size field decodes successfully, a decoded own_size
different from the required total length (52 for 32-bit, 64 for 64-bit)
makes Header::parse_bytes fail with `InsuffcientHeaderLength` carrying
own_size (the code has no separate `InvalidHeaderSize` error and reuses
the length-error constructor); an own_size equal to the required length
lets the parse succeed. -/
theorem c1_own_size_check (l : List Nat) (ww : WordWidth) (e : Endianness)
    (h52 : 52 ≤ l.length)
    (hmagic : Header.check_magic l = .ok ())
    (hww : WordWidth.parse_byte (l.getD 4 0) = .ok ww)
    (hreq : Header.required_bytes ww ≤ l.length)
    (hend : Endianness.parse_byte (l.getD 5 0) = .ok e)
    (hft : ∃ ft, FileType.parse_bytes ((l.drop 16).take 2) e = .ok ft) :
    (val16 (l.drop ((Header.field_offsets ww).getD 4 0)) e ≠
        Header.required_bytes ww →
      Header.parse_bytes l = .error (.InsuffcientHeaderLength
        (val16 (l.drop ((Header.field_offsets ww).getD 4 0)) e))) ∧
    (val16 (l.drop ((Header.field_offsets ww).getD 4 0)) e =
        Header.required_bytes ww →
      ∃ hdr, Header.parse_bytes l = .ok hdr ∧ hdr.word_width = ww ∧
        hdr.endianness = e) := by
  obtain ⟨ft, hft⟩ := hft
  have hc52 : Header.check_length 52 l.length = .ok () := by
    unfold Header.check_length
    rw [if_neg (by omega)]
  have hcreq : Header.check_length (Header.required_bytes ww) l.length =
      .ok () := by
    unfold Header.check_length
    rw [if_neg (by omega)]
  have hArch : Arch.parse_bytes ((l.drop 18).take 2) e =
      .ok (Arch.from_u16 (val16 ((l.drop 18).take 2) e)) := by
    unfold Arch.parse_bytes
    rw [if_neg (by simp only [List.length_take, List.length_drop]; omega)]
  cases ww with
  | Width32 =>
    have hreq' : 52 ≤ l.length := hreq
    have hW0 : Word.parse_bytes (l.drop 24) .Width32 e =
        .ok (.Word32 (val32 (l.drop 24) e)) := by
      simp only [Word.parse_bytes]
      rw [if_neg (by simp only [List.length_drop]; omega)]
    have hW1 : Word.parse_bytes (l.drop 28) .Width32 e =
        .ok (.Word32 (val32 (l.drop 28) e)) := by
      simp only [Word.parse_bytes]
      rw [if_neg (by simp only [List.length_drop]; omega)]
    have hW2 : Word.parse_bytes (l.drop 32) .Width32 e =
        .ok (.Word32 (val32 (l.drop 32) e)) := by
      simp only [Word.parse_bytes]
      rw [if_neg (by simp only [List.length_drop]; omega)]
    constructor
    · intro hne
      have hne' : (52 : Nat) ≠ val16 (l.drop 40) e := by
        simpa [Header.field_offsets, Header.required_bytes] using Ne.symm hne
      simp only [Header.parse_bytes, hc52, hmagic, hww, hend, hft, hArch,
        hW0, hW1, hW2, Header.field_offsets, Header.required_bytes,
        List.getD_cons_succ, List.getD_cons_zero]
      rw [if_pos hne']
    · intro heq
      simp only [Header.field_offsets, Header.required_bytes,
        List.getD_cons_succ, List.getD_cons_zero] at heq
      simp only [Header.parse_bytes, hc52, hmagic, hww, hend, hft, hArch,
        hW0, hW1, hW2, Header.field_offsets, Header.required_bytes,
        List.getD_cons_succ, List.getD_cons_zero]
      rw [if_neg (not_ne_iff.mpr heq.symm)]
      exact ⟨_, rfl, rfl, rfl⟩
  | Width64 =>
    have hreq' : 64 ≤ l.length := hreq
    have hc64 : Header.check_length 64 l.length = .ok () := by
      unfold Header.check_length
      rw [if_neg (by omega)]
    have hW0 : Word.parse_bytes (l.drop 24) .Width64 e =
        .ok (.Word64 (val64 (l.drop 24) e)) := by
      simp only [Word.parse_bytes]
      rw [if_neg (by simp only [List.length_drop]; omega)]
    have hW1 : Word.parse_bytes (l.drop 32) .Width64 e =
        .ok (.Word64 (val64 (l.drop 32) e)) := by
      simp only [Word.parse_bytes]
      rw [if_neg (by simp only [List.length_drop]; omega)]
    have hW2 : Word.parse_bytes (l.drop 40) .Width64 e =
        .ok (.Word64 (val64 (l.drop 40) e)) := by
      simp only [Word.parse_bytes]
      rw [if_neg (by simp only [List.length_drop]; omega)]
    constructor
    · intro hne
      have hne' : (64 : Nat) ≠ val16 (l.drop 52) e := by
        simpa [Header.field_offsets, Header.required_bytes] using Ne.symm hne
      simp only [Header.parse_bytes, hc52, hc64, hmagic, hww, hend, hft,
        hArch, hW0, hW1, hW2, Header.field_offsets, Header.required_bytes,
        List.getD_cons_succ, List.getD_cons_zero]
      rw [if_pos hne']
    · intro heq
      simp only [Header.field_offsets, Header.required_bytes,
        List.getD_cons_succ, List.getD_cons_zero] at heq
      simp only [Header.parse_bytes, hc52, hc64, hmagic, hww, hend, hft,
        hArch, hW0, hW1, hW2, Header.field_offsets, Header.required_bytes,
        List.getD_cons_succ, List.getD_cons_zero]
      rw [if_neg (not_ne_iff.mpr heq.symm)]
      exact ⟨_, rfl, rfl, rfl⟩

/-- C1, witness: on the valid 32-bit fixture own_size decodes to 52 and
the parse succeeds as a 32-bit little-endian header. -/
theorem c1_witness :
    ∃ hdr, Header.parse_bytes VALID_HEADER_DATA_32 = .ok hdr ∧
      hdr.word_width = .Width32 ∧ hdr.endianness = .Little :=
  (c1_own_size_check VALID_HEADER_DATA_32 .Width32 .Little (by decide)
    (by decide) (by decide) (by decide) (by decide)
    ⟨.Executable, by decide⟩).2 (by decide)

/-- C6, counterexample: a 52-byte input whose byte 4 declares a 64-bit
header but whose magic is wrong fails with `NoELF(0)`, not with
`InsuffcientHeaderLength(52)` — the magic check runs before the 64-bit
length re-check, so "byte 4 declares 64-bit and length < 64" does not by
itself force the length error. -/
theorem c6_counterexample :
    (([0, 0, 0, 0, 2] ++ List.replicate 47 0 : List Nat)).length = 52 ∧
    (([0, 0, 0, 0, 2] ++ List.replicate 47 0 : List Nat)).getD 4 0 = 2 ∧
    Header.parse_bytes ([0, 0, 0, 0, 2] ++ List.replicate 47 0) =
      .error (.NoELF 0) ∧
    Header.parse_bytes ([0, 0, 0, 0, 2] ++ List.replicate 47 0) ≠
      .error (.InsuffcientHeaderLength 52) := by decide

/-- C6, amended: Header::parse_bytes fails with
`InsuffcientHeaderLength` carrying the actual slice length whenever the
slice is shorter than 52 bytes (for every input), and whenever the slice
is at least 52 bytes long, carries the valid magic, and its byte 4
declares a 64-bit header while the slice is shorter than 64 bytes. -/
theorem c6_insufficient_header_length (l : List Nat) :
    (l.length < 52 →
      Header.parse_bytes l = .error (.InsuffcientHeaderLength l.length)) ∧
    (52 ≤ l.length → l.getD 0 0 = 0x7F → l.getD 1 0 = 0x45 →
      l.getD 2 0 = 0x4C → l.getD 3 0 = 0x46 → l.getD 4 0 = 2 →
      l.length < 64 →
      Header.parse_bytes l = .error (.InsuffcientHeaderLength l.length)) := by
  constructor
  · intro h
    simp [Header.parse_bytes, Header.check_length, h]
  · intro h52 h0 h1 h2 h3 h4 h64
    have hv : val32 l .Little = 0x464C457F := by
      simp only [val32, List.getD] at h0 h1 h2 h3 ⊢
      rw [h0, h1, h2, h3]
      norm_num
    have hck : ¬ l.length < 52 := Nat.not_lt.mpr h52
    have h4' : l[4]?.getD 0 = 2 := by simpa [List.getD] using h4
    simp [Header.parse_bytes, Header.check_length, Header.check_magic, hv,
      hck, h4', WordWidth.parse_byte, Header.required_bytes, h64]

/-- C6, witness: the empty slice and the 32-bit fixture truncated to 50
bytes each yield the length error with the actual length. -/
theorem c6_witness :
    Header.parse_bytes [] = .error (.InsuffcientHeaderLength 0) ∧
    Header.parse_bytes (VALID_HEADER_DATA_32.take 50) =
      .error (.InsuffcientHeaderLength 50) := by
  constructor
  · simpa using (c6_insufficient_header_length []).1 (by decide)
  · simpa using
      (c6_insufficient_header_length (VALID_HEADER_DATA_32.take 50)).1
        (by decide)

theorem position0_eq_none (l : List Nat) : position0 l = none ↔ ¬ 0 ∈ l := by
  induction l with
  | nil => simp [position0]
  | cons b rest ih =>
    by_cases hb : b = 0
    · subst hb
      simp [position0]
    · simp [position0, hb, Option.map_eq_none', ih, Ne.symm hb]

theorem position0_append (name rest' : List Nat) (h : ¬ 0 ∈ name) :
    position0 (name ++ 0 :: rest') = some name.length := by
  induction name with
  | nil => simp [position0]
  | cons b n ih =>
    have hb : b ≠ 0 := by
      intro hb
      exact h (by simp [hb])
    have hn : ¬ 0 ∈ n := fun hm => h (by simp [hm])
    simp [position0, hb, ih hn]

/-- C3, counterexample: resolving a section whose name_index is 2
against the one-byte string table `[0]` does not yield
`UnterminatedString` — the slice expression `&names_table[index..]`
panics because the index exceeds the buffer length.  The index is past
the buffer's last NUL with no terminator following, so the claim
predicts `UnterminatedString` here. -/
theorem c3_counterexample :
    (⟨2, .Null, 0, .Word32 0, .Word32 0, .Word32 0, 0, 0, .Word32 0,
        .Word32 0⟩ : UnnamedSectionHeader).to_named [0] = none ∧
    (⟨2, .Null, 0, .Word32 0, .Word32 0, .Word32 0, 0, 0, .Word32 0,
        .Word32 0⟩ : UnnamedSectionHeader).to_named [0] ≠
      some (.error .UnterminatedString) := by decide

/-- C3, amended: name resolution treats name_index as a byte offset into
the string-table buffer and scans forward for a NUL.  If the bytes from
name_index decompose as a NUL-free prefix followed by a NUL, the result
is a section header whose name is that prefix when it is valid UTF-8,
and `InvalidSectionName` otherwise; if name_index is at most the buffer
length and no NUL follows, the result is `UnterminatedString`; but a
name_index strictly greater than the buffer length panics (slice index
out of range) instead of returning `UnterminatedString`. -/
theorem c3_name_resolution (u : UnnamedSectionHeader) (table : List Nat) :
    (table.length < u.name_index → u.to_named table = none) ∧
    (u.name_index ≤ table.length → ¬ 0 ∈ table.drop u.name_index →
      u.to_named table = some (.error .UnterminatedString)) ∧
    (∀ name rest, table.drop u.name_index = name ++ 0 :: rest →
      ¬ 0 ∈ name →
      u.to_named table =
        some (if utf8Valid name then
          .ok ⟨name, u.typ, u.flags, u.address, u.offset, u.size, u.link,
            u.info, u.align, u.entry_size⟩
        else .error .InvalidSectionName)) := by
  refine ⟨?_, ?_, ?_⟩
  · intro h
    simp [UnnamedSectionHeader.to_named, h]
  · intro hle hnul
    have hlt : ¬ table.length < u.name_index := Nat.not_lt.mpr hle
    simp [UnnamedSectionHeader.to_named, hlt,
      (position0_eq_none (table.drop u.name_index)).mpr hnul]
  · intro name rest hdec h0
    have hle : u.name_index ≤ table.length := by
      by_contra h
      have hnil : table.drop u.name_index = [] :=
        List.drop_eq_nil_of_le (le_of_not_le (fun hc => h (by omega)))
      rw [hnil] at hdec
      exact List.cons_ne_nil 0 rest (List.append_eq_nil.mp hdec.symm).2
    have hlt : ¬ table.length < u.name_index := Nat.not_lt.mpr hle
    have hpos : position0 (table.drop u.name_index) = some name.length := by
      rw [hdec]
      exact position0_append name rest h0
    have htake : (table.drop u.name_index).take name.length = name := by
      rw [hdec]
      exact List.take_left name (0 :: rest)
    by_cases hval : utf8Valid name
    · simp [UnnamedSectionHeader.to_named, hlt, hpos, htake, hval]
    · simp [UnnamedSectionHeader.to_named, hlt, hpos, htake, hval]

/-- C3, witness: with string table `"\0.text\0.data\0"`, name_index 1
resolves to name `".text"` (bytes 2E 74 65 78 74), and name_index 13 —
at the buffer length, past the last NUL — yields `UnterminatedString`. -/
theorem c3_witness :
    (⟨1, .StringTable, 0, .Word32 0, .Word32 0, .Word32 0, 0, 0, .Word32 0,
        .Word32 0⟩ : UnnamedSectionHeader).to_named
      [0, 0x2E, 0x74, 0x65, 0x78, 0x74, 0, 0x2E, 0x64, 0x61, 0x74, 0x61, 0] =
      some (.ok ⟨[0x2E, 0x74, 0x65, 0x78, 0x74], .StringTable, 0, .Word32 0,
        .Word32 0, .Word32 0, 0, 0, .Word32 0, .Word32 0⟩) ∧
    (⟨13, .StringTable, 0, .Word32 0, .Word32 0, .Word32 0, 0, 0, .Word32 0,
        .Word32 0⟩ : UnnamedSectionHeader).to_named
      [0, 0x2E, 0x74, 0x65, 0x78, 0x74, 0, 0x2E, 0x64, 0x61, 0x74, 0x61, 0] =
      some (.error .UnterminatedString) := by
  constructor
  · have h := (c3_name_resolution
      ⟨1, .StringTable, 0, .Word32 0, .Word32 0, .Word32 0, 0, 0, .Word32 0,
        .Word32 0⟩
      [0, 0x2E, 0x74, 0x65, 0x78, 0x74, 0, 0x2E, 0x64, 0x61, 0x74, 0x61,
        0]).2.2 [0x2E, 0x74, 0x65, 0x78, 0x74]
      [0x2E, 0x64, 0x61, 0x74, 0x61, 0] (by decide) (by decide)
    simpa using h
  · exact (c3_name_resolution _ _).2.1 (by decide) (by decide)

theorem getD_drop (l : List Nat) (n i : Nat) :
    (l.drop n).getD i 0 = l.getD (n + i) 0 := by
  simp [List.getD, List.getElem?_drop]

theorem getD_replicate_zero (n i : Nat) :
    (List.replicate n (0 : Nat)).getD i 0 = 0 := by
  simp only [List.getD, List.get?_eq_getElem?, List.getElem?_replicate]
  split <;> rfl

/-- A successful ProgramHeader parse implies the slice had at least 32
bytes (the first check of parse_bytes). -/
theorem pheader_parse_ok_length {l : List Nat} {ww : WordWidth}
    {e : Endianness} {ph : ProgramHeader}
    (h : ProgramHeader.parse_bytes l ww e = .ok ph) : 32 ≤ l.length := by
  by_contra hc
  have hck : ProgramHeader.check_length 32 l.length =
      .error (.InvalidProgHeaderLength l.length) := by
    unfold ProgramHeader.check_length
    rw [if_pos (by omega)]
  simp [ProgramHeader.parse_bytes, hck] at h

/-- A successful UnnamedSectionHeader parse implies the slice had at
least 40 bytes (the expected length is 40 or 64). -/
theorem sheader_parse_ok_length {l : List Nat} {ww : WordWidth}
    {e : Endianness} {sh : UnnamedSectionHeader}
    (h : UnnamedSectionHeader.parse_bytes l ww e = .ok sh) :
    40 ≤ l.length := by
  by_contra hc
  have hck : ∀ m, 40 ≤ m →
      UnnamedSectionHeader.check_length m l.length =
        .error (.InsufficientSectionHeaderLength l.length) := by
    intro m hm
    unfold UnnamedSectionHeader.check_length
    rw [if_pos (by omega)]
  cases ww <;>
    simp [UnnamedSectionHeader.parse_bytes,
      UnnamedSectionHeader.expected_length, hck 40 (by omega),
      hck 64 (by omega)] at h

theorem parse_entries_aux_nil {α : Type}
    (parse : List Nat → Except ParseError α) (es : Nat) (buf : List Nat) :
    Metadata.parse_entries_aux parse es buf [] = some (.ok []) := rfl

theorem parse_entries_aux_cons {α : Type}
    (parse : List Nat → Except ParseError α) (es : Nat) (buf : List Nat)
    (i : Nat) (rest : List Nat) :
    Metadata.parse_entries_aux parse es buf (i :: rest) =
      (if buf.length < i * es % 2 ^ 16 then none
       else
         match parse (buf.drop (i * es % 2 ^ 16)) with
         | .error e => some (.error (.InvalidELF e))
         | .ok x =>
           match Metadata.parse_entries_aux parse es buf rest with
           | none => none
           | some (.error e) => some (.error e)
           | some (.ok xs) => some (.ok (x :: xs))) := by
  rw [Metadata.parse_entries_aux]

/-- Evaluation of the entry-collection loop when every entry parses:
the result is the ordered list of parsed entries. -/
theorem parse_entries_aux_ok {α : Type}
    (parse : List Nat → Except ParseError α) (es : Nat) (buf : List Nat)
    (idxs : List Nat) (f : Nat → α)
    (hsize : ∀ i ∈ idxs, i * es < 2 ^ 16)
    (hlen : ∀ i ∈ idxs, i * es ≤ buf.length)
    (hok : ∀ i ∈ idxs, parse (buf.drop (i * es)) = .ok (f i)) :
    Metadata.parse_entries_aux parse es buf idxs = some (.ok (idxs.map f)) := by
  induction idxs with
  | nil => simp [Metadata.parse_entries_aux]
  | cons i rest ih =>
    have hmem : i ∈ i :: rest := List.mem_cons_self i rest
    have hm : i * es % 2 ^ 16 = i * es := Nat.mod_eq_of_lt (hsize i hmem)
    have hl : ¬ buf.length < i * es := Nat.not_lt.mpr (hlen i hmem)
    have hrec := ih (fun j hj => hsize j (List.mem_cons_of_mem i hj))
      (fun j hj => hlen j (List.mem_cons_of_mem i hj))
      (fun j hj => hok j (List.mem_cons_of_mem i hj))
    simp only [Metadata.parse_entries_aux, hm]
    rw [if_neg hl]
    simp only [hok i hmem, hrec, List.map]

/-- Parsing a 32-bit little-endian program header entry whose first four
bytes encode `t` and whose remaining bytes up to offset 32 are all zero
yields the entry with the decoded type and all-zero fields. -/
theorem pheader_parse_const (B : List Nat) (t : Nat)
    (typ : ProgramHeaderSegmentType) (hlen : 32 ≤ B.length)
    (h0 : B.getD 0 0 = t)
    (hz : ∀ i, 1 ≤ i → i < 32 → B.getD i 0 = 0)
    (hty : ProgramHeaderSegmentType.parse_u32 t = .ok typ) :
    ProgramHeader.parse_bytes B .Width32 .Little =
      .ok ⟨typ, 0, .Word32 0, .Word32 0, .Word32 0, .Word32 0, .Word32 0,
        .Word32 0⟩ := by
  have hck : ProgramHeader.check_length 32 B.length = .ok () := by
    unfold ProgramHeader.check_length
    rw [if_neg (by omega)]
  have hvB : val32 B .Little = t := by
    simp only [val32]
    rw [h0, hz 1 (by omega) (by omega), hz 2 (by omega) (by omega),
      hz 3 (by omega) (by omega)]
    omega
  have htyB : ProgramHeaderSegmentType.parse_bytes B .Little = .ok typ := by
    unfold ProgramHeaderSegmentType.parse_bytes
    rw [if_neg (by omega), hvB]
    exact hty
  have hw : ∀ k, 4 ≤ k → k + 4 ≤ 32 →
      Word.parse_bytes (B.drop k) .Width32 .Little = .ok (.Word32 0) := by
    intro k hk1 hk2
    simp only [Word.parse_bytes]
    rw [if_neg (by simp only [List.length_drop]; omega)]
    have hv : val32 (B.drop k) .Little = 0 := by
      simp only [val32, getD_drop, Nat.add_zero]
      rw [hz k (by omega) (by omega), hz (k + 1) (by omega) (by omega),
        hz (k + 2) (by omega) (by omega), hz (k + 3) (by omega) (by omega)]
      norm_num
    rw [hv]
  have hfl : val32 (B.drop 24) .Little = 0 := by
    simp only [val32, getD_drop, Nat.add_zero]
    rw [hz 24 (by omega) (by omega), hz 25 (by omega) (by omega),
      hz 26 (by omega) (by omega), hz 27 (by omega) (by omega)]
    norm_num
  have hvv : ProgramHeader.validate_vaddr (.Word32 0) (.Word32 0)
      (.Word32 0) = .ok () := by decide
  simp only [ProgramHeader.parse_bytes, ProgramHeader.min_size,
    ProgramHeader.field_offsets, List.getD_cons_zero, List.getD_cons_succ,
    hck, htyB, hw 4 (by omega) (by omega), hw 8 (by omega) (by omega),
    hw 12 (by omega) (by omega), hw 16 (by omega) (by omega),
    hw 20 (by omega) (by omega), hw 28 (by omega) (by omega), hfl, hvv]

theorem c5Buf_length : c5Buf.length = 98304 := by
  rw [c5Buf, List.length_append, List.length_cons, List.length_replicate,
    List.length_replicate]

theorem c5Buf_getD_ne (j : Nat) (hj : j ≠ 65536) : c5Buf.getD j 0 = 0 := by
  rcases Nat.lt_or_ge j 65536 with h | h
  · have : c5Buf.getD j 0 = (List.replicate 65536 (0 : Nat)).getD j 0 := by
      simp only [c5Buf, List.getD, List.get?_eq_getElem?]
      rw [List.getElem?_append_left
        (by rw [List.length_replicate]; exact h)]
    rw [this, getD_replicate_zero]
  · have h1 : c5Buf.getD j 0 =
        (1 :: List.replicate 32767 (0 : Nat)).getD (j - 65536) 0 := by
      simp only [c5Buf, List.getD, List.get?_eq_getElem?]
      rw [List.getElem?_append_right
        (by rw [List.length_replicate]; exact h), List.length_replicate]
    rw [h1, show j - 65536 = (j - 65537) + 1 from by omega,
      List.getD_cons_succ, getD_replicate_zero]

theorem c5Buf_getD_mid : c5Buf.getD 65536 0 = 1 := by
  have h1 : c5Buf.getD 65536 0 =
      (1 :: List.replicate 32767 (0 : Nat)).getD 0 0 := by
    simp only [c5Buf, List.getD, List.get?_eq_getElem?]
    rw [List.getElem?_append_right (by rw [List.length_replicate]),
      List.length_replicate]
  rw [h1]
  rfl

/-- Evaluation of the program-header loop on a 98304-byte buffer whose
entries at offsets 0 and 32768 are Null: the third offset is computed as
2 * 0x8000 in u16 arithmetic, wrapping to 0. -/
theorem c5_buf_eval (b : List Nat) (hlen : b.length = 98304)
    (hE0 : ProgramHeader.parse_bytes b .Width32 .Little = .ok c5Null)
    (hE1 : ProgramHeader.parse_bytes (b.drop 32768) .Width32 .Little =
      .ok c5Null) :
    Metadata.parse_entries_aux
      (fun s => ProgramHeader.parse_bytes s .Width32 .Little) 32768 b
      [0, 1, 2] = some (.ok [c5Null, c5Null, c5Null]) := by
  have m0 : 0 * 32768 % 2 ^ 16 = 0 := by norm_num
  have m1 : 1 * 32768 % 2 ^ 16 = 32768 := by norm_num
  have m2 : 2 * 32768 % 2 ^ 16 = 0 := by norm_num
  rw [parse_entries_aux_cons, parse_entries_aux_cons, parse_entries_aux_cons,
    parse_entries_aux_nil]
  simp only [m0, m1, m2, hlen, List.drop_zero, hE0, hE1]
  norm_num

/-- C5, counterexample: with entry size 0x8000 and three entries, the
code computes the third entry's offset in 16-bit arithmetic, so
2 * 0x8000 = 0x10000 wraps to 0 and the third entry is re-parsed from
offset 0 (a Null entry) — while parsing from the claimed offset
2 * entry_size of the same sufficiently long buffer yields a different,
Load-typed entry. -/
theorem c5_counterexample :
    Metadata.parse_program_headers c5Header c5Buf =
      some (.ok [c5Null, c5Null, c5Null]) ∧
    ProgramHeader.parse_bytes
      (c5Buf.drop (2 * c5Header.pheader_entry_size))
      c5Header.word_width c5Header.endianness = .ok c5Load ∧
    c5Null ≠ c5Load := by
  have hE0 : ProgramHeader.parse_bytes c5Buf .Width32 .Little =
      .ok c5Null := by
    have := pheader_parse_const c5Buf 0 .Null (by rw [c5Buf_length]; omega)
      (c5Buf_getD_ne 0 (by omega))
      (fun i h1 h2 => c5Buf_getD_ne i (by omega)) (by decide)
    simpa [c5Null] using this
  have hE1 : ProgramHeader.parse_bytes (c5Buf.drop 32768) .Width32
      .Little = .ok c5Null := by
    have := pheader_parse_const (c5Buf.drop 32768) 0 .Null
      (by simp only [List.length_drop, c5Buf_length]; norm_num)
      (by rw [getD_drop]; exact c5Buf_getD_ne 32768 (by omega))
      (fun i h1 h2 => by
        rw [getD_drop]
        exact c5Buf_getD_ne (32768 + i) (by omega)) (by decide)
    simpa [c5Null] using this
  have hE2 : ProgramHeader.parse_bytes (c5Buf.drop 65536) .Width32
      .Little = .ok c5Load := by
    have := pheader_parse_const (c5Buf.drop 65536) 1 .Load
      (by simp only [List.length_drop, c5Buf_length]; norm_num)
      (by rw [getD_drop]; exact c5Buf_getD_mid)
      (fun i h1 h2 => by
        rw [getD_drop]
        exact c5Buf_getD_ne (65536 + i) (by omega)) (by decide)
    simpa [c5Load] using this
  refine ⟨?_, ?_, by decide⟩
  · have hstep : Metadata.parse_program_headers c5Header c5Buf =
        Metadata.parse_entries_aux
          (fun s => ProgramHeader.parse_bytes s .Width32 .Little) 32768
          c5Buf [0, 1, 2] := rfl
    rw [hstep]
    exact c5_buf_eval c5Buf c5Buf_length hE0 hE1
  · simpa [c5Header] using hE2

/-- C5, amended: provided the 16-bit offset products i * entry_size do
not overflow (the code computes them in u16 arithmetic, wrapping
modulo 2^16 otherwise — see the counterexample), decoding the
program-header table produces exactly count entries, the i-th parsed
from the bytes starting at offset i * entry_size, in on-disk order
(index = array position); likewise for the section-header table. -/
theorem c5_table_decoding (h : Header) (pbuf sbuf : List Nat)
    (pfun : Nat → ProgramHeader) (sfun : Nat → UnnamedSectionHeader)
    (hpo : ∀ i < h.pheader_entries, i * h.pheader_entry_size < 2 ^ 16)
    (hso : ∀ i < h.sheader_entries, i * h.sheader_entry_size < 2 ^ 16)
    (hp : ∀ i < h.pheader_entries,
      ProgramHeader.parse_bytes (pbuf.drop (i * h.pheader_entry_size))
        h.word_width h.endianness = .ok (pfun i))
    (hs : ∀ i < h.sheader_entries,
      UnnamedSectionHeader.parse_bytes (sbuf.drop (i * h.sheader_entry_size))
        h.word_width h.endianness = .ok (sfun i)) :
    (Metadata.parse_program_headers h pbuf =
        some (.ok ((List.range h.pheader_entries).map pfun)) ∧
      ((List.range h.pheader_entries).map pfun).length =
        h.pheader_entries ∧
      ∀ i < h.pheader_entries,
        ((List.range h.pheader_entries).map pfun)[i]? = some (pfun i)) ∧
    (Metadata.parse_section_headers h sbuf =
        some (.ok ((List.range h.sheader_entries).map sfun)) ∧
      ((List.range h.sheader_entries).map sfun).length =
        h.sheader_entries ∧
      ∀ i < h.sheader_entries,
        ((List.range h.sheader_entries).map sfun)[i]? = some (sfun i)) := by
  have hplen : ∀ i ∈ List.range h.pheader_entries,
      i * h.pheader_entry_size ≤ pbuf.length := by
    intro i hi
    have hlen := pheader_parse_ok_length (hp i (List.mem_range.mp hi))
    rw [List.length_drop] at hlen
    omega
  have hslen : ∀ i ∈ List.range h.sheader_entries,
      i * h.sheader_entry_size ≤ sbuf.length := by
    intro i hi
    have hlen := sheader_parse_ok_length (hs i (List.mem_range.mp hi))
    rw [List.length_drop] at hlen
    omega
  refine ⟨⟨?_, by simp, ?_⟩, ⟨?_, by simp, ?_⟩⟩
  · exact parse_entries_aux_ok _ _ _ _ pfun
      (fun i hi => hpo i (List.mem_range.mp hi)) hplen
      (fun i hi => hp i (List.mem_range.mp hi))
  · intro i hi
    simp [List.getElem?_map, List.getElem?_range hi]
  · exact parse_entries_aux_ok _ _ _ _ sfun
      (fun i hi => hso i (List.mem_range.mp hi)) hslen
      (fun i hi => hs i (List.mem_range.mp hi))
  · intro i hi
    simp [List.getElem?_map, List.getElem?_range hi]

/-- C5, witness: a header declaring one 32-byte program header entry and
one 40-byte section header entry decodes one all-zero entry from each
table. -/
theorem c5_witness :
    Metadata.parse_program_headers
      ⟨.Width32, .Little, 0, .Unknown, 0, .None, .Unspecified, 0, .Word32 0,
        .Word32 0, .Word32 0, 0, 32, 1, 40, 1, 0⟩ (List.replicate 32 0) =
      some (.ok ((List.range 1).map (fun _ => c5Null))) ∧
    Metadata.parse_section_headers
      ⟨.Width32, .Little, 0, .Unknown, 0, .None, .Unspecified, 0, .Word32 0,
        .Word32 0, .Word32 0, 0, 32, 1, 40, 1, 0⟩ (List.replicate 40 0) =
      some (.ok ((List.range 1).map (fun _ =>
        (⟨0, .Null, 0, .Word32 0, .Word32 0, .Word32 0, 0, 0, .Word32 0,
          .Word32 0⟩ : UnnamedSectionHeader)))) := by
  have hmain := c5_table_decoding
    ⟨.Width32, .Little, 0, .Unknown, 0, .None, .Unspecified, 0, .Word32 0,
      .Word32 0, .Word32 0, 0, 32, 1, 40, 1, 0⟩
    (List.replicate 32 0) (List.replicate 40 0) (fun _ => c5Null)
    (fun _ => ⟨0, .Null, 0, .Word32 0, .Word32 0, .Word32 0, 0, 0,
      .Word32 0, .Word32 0⟩)
    (by decide) (by decide) (by decide) (by decide)
  exact ⟨hmain.1.1, hmain.2.1⟩

theorem getD_eq_of_take_eq {l₁ l₂ : List Nat} {N : Nat}
    (h : l₁.take N = l₂.take N) {i : Nat} (hi : i < N) :
    l₁.getD i 0 = l₂.getD i 0 := by
  have h' := congrArg (fun l => l[i]?) h
  simp only [List.getElem?_take_of_lt hi] at h'
  simp [List.getD, h']

theorem slice_eq_of_take_eq {l₁ l₂ : List Nat} {N : Nat}
    (h : l₁.take N = l₂.take N) {n k : Nat} (hnk : n + k ≤ N) :
    (l₁.drop n).take k = (l₂.drop n).take k := by
  have step : ∀ l : List Nat, ((l.take N).drop n).take k = (l.drop n).take k := by
    intro l
    rw [List.drop_take, List.take_take]
    congr 1
    omega
  rw [← step l₁, ← step l₂, h]

theorem val16_drop_congr {l₁ l₂ : List Nat} {N : Nat}
    (ha : ∀ i < N, l₁.getD i 0 = l₂.getD i 0) {n : Nat} (hn : n + 2 ≤ N)
    (e : Endianness) : val16 (l₁.drop n) e = val16 (l₂.drop n) e := by
  cases e <;>
    · simp only [val16, getD_drop, Nat.add_zero]
      rw [ha n (by omega), ha (n + 1) (by omega)]

theorem val32_drop_congr {l₁ l₂ : List Nat} {N : Nat}
    (ha : ∀ i < N, l₁.getD i 0 = l₂.getD i 0) {n : Nat} (hn : n + 4 ≤ N)
    (e : Endianness) : val32 (l₁.drop n) e = val32 (l₂.drop n) e := by
  cases e <;>
    · simp only [val32, getD_drop, Nat.add_zero]
      rw [ha n (by omega), ha (n + 1) (by omega), ha (n + 2) (by omega),
        ha (n + 3) (by omega)]

theorem val64_drop_congr {l₁ l₂ : List Nat} {N : Nat}
    (ha : ∀ i < N, l₁.getD i 0 = l₂.getD i 0) {n : Nat} (hn : n + 8 ≤ N)
    (e : Endianness) : val64 (l₁.drop n) e = val64 (l₂.drop n) e := by
  cases e <;>
    · simp only [val64, getD_drop, Nat.add_zero]
      rw [ha n (by omega), ha (n + 1) (by omega), ha (n + 2) (by omega),
        ha (n + 3) (by omega), ha (n + 4) (by omega), ha (n + 5) (by omega),
        ha (n + 6) (by omega), ha (n + 7) (by omega)]

theorem word_drop_congr {l₁ l₂ : List Nat} {N : Nat}
    (hl₁ : N ≤ l₁.length) (hl₂ : N ≤ l₂.length)
    (ha : ∀ i < N, l₁.getD i 0 = l₂.getD i 0) {n : Nat} (ww : WordWidth)
    (hn : n + ww.size ≤ N) (e : Endianness) :
    Word.parse_bytes (l₁.drop n) ww e = Word.parse_bytes (l₂.drop n) ww e := by
  cases ww
  · have hn' : n + 4 ≤ N := hn
    simp only [Word.parse_bytes]
    rw [if_neg (by simp only [List.length_drop]; omega),
      if_neg (by simp only [List.length_drop]; omega),
      val32_drop_congr ha hn' e]
  · have hn' : n + 8 ≤ N := hn
    simp only [Word.parse_bytes]
    rw [if_neg (by simp only [List.length_drop]; omega),
      if_neg (by simp only [List.length_drop]; omega),
      val64_drop_congr ha hn' e]

/-- Core congruence: Header::parse_bytes only reads the first N bytes
and compares the slice length against constants at most N, where N = 64,
or N = 52 when byte 4 declares a 32-bit header. -/
theorem header_parse_congr {l₁ l₂ : List Nat} {N : Nat}
    (hl₁ : N ≤ l₁.length) (hl₂ : N ≤ l₂.length)
    (htake : l₁.take N = l₂.take N)
    (hN : N = 64 ∨ (N = 52 ∧ l₁.getD 4 0 = 1)) :
    Header.parse_bytes l₁ = Header.parse_bytes l₂ := by
  have h52N : 52 ≤ N := by rcases hN with h | ⟨h, _⟩ <;> omega
  have ha : ∀ i < N, l₁.getD i 0 = l₂.getD i 0 :=
    fun i hi => getD_eq_of_take_eq htake hi
  have ec₁ : Header.check_length 52 l₁.length = .ok () := by
    unfold Header.check_length
    rw [if_neg (by omega)]
  have ec₂ : Header.check_length 52 l₂.length = .ok () := by
    unfold Header.check_length
    rw [if_neg (by omega)]
  have emagic : Header.check_magic l₁ = Header.check_magic l₂ := by
    unfold Header.check_magic
    have hv : val32 l₁ .Little = val32 l₂ .Little := by
      have h0 := val32_drop_congr ha (n := 0) (by omega) .Little
      simpa using h0
    rw [hv]
  have eg5 : l₁.getD 5 0 = l₂.getD 5 0 := ha 5 (by omega)
  have eg6 : l₁.getD 6 0 = l₂.getD 6 0 := ha 6 (by omega)
  have eg7 : l₁.getD 7 0 = l₂.getD 7 0 := ha 7 (by omega)
  have eg8 : l₁.getD 8 0 = l₂.getD 8 0 := ha 8 (by omega)
  have eft : ∀ e, FileType.parse_bytes ((l₁.drop 16).take 2) e =
      FileType.parse_bytes ((l₂.drop 16).take 2) e := by
    intro e
    rw [slice_eq_of_take_eq htake (by omega)]
  have earch : ∀ e, Arch.parse_bytes ((l₁.drop 18).take 2) e =
      Arch.parse_bytes ((l₂.drop 18).take 2) e := by
    intro e
    rw [slice_eq_of_take_eq htake (by omega)]
  have ever : ∀ e, val32 ((l₁.drop 20).take 4) e =
      val32 ((l₂.drop 20).take 4) e := by
    intro e
    rw [slice_eq_of_take_eq htake (by omega)]
  rcases hN with rfl | ⟨rfl, h4⟩
  · have eg4 : l₁.getD 4 0 = l₂.getD 4 0 := ha 4 (by omega)
    have ecreq₁ : ∀ ww, Header.check_length (Header.required_bytes ww)
        l₁.length = .ok () := by
      intro ww
      cases ww <;>
        · simp only [Header.required_bytes]
          unfold Header.check_length
          rw [if_neg (by omega)]
    have ecreq₂ : ∀ ww, Header.check_length (Header.required_bytes ww)
        l₂.length = .ok () := by
      intro ww
      cases ww <;>
        · simp only [Header.required_bytes]
          unfold Header.check_length
          rw [if_neg (by omega)]
    have eW0 : ∀ ww e,
        Word.parse_bytes (l₁.drop ((Header.field_offsets ww).getD 0 0)) ww e =
        Word.parse_bytes (l₂.drop ((Header.field_offsets ww).getD 0 0)) ww e := by
      intro ww e
      cases ww <;>
        (simp only [Header.field_offsets, List.getD_cons_zero,
          List.getD_cons_succ]
         exact word_drop_congr hl₁ hl₂ ha _ (by norm_num [WordWidth.size]) e)
    have eW1 : ∀ ww e,
        Word.parse_bytes (l₁.drop ((Header.field_offsets ww).getD 1 0)) ww e =
        Word.parse_bytes (l₂.drop ((Header.field_offsets ww).getD 1 0)) ww e := by
      intro ww e
      cases ww <;>
        (simp only [Header.field_offsets, List.getD_cons_zero,
          List.getD_cons_succ]
         exact word_drop_congr hl₁ hl₂ ha _ (by norm_num [WordWidth.size]) e)
    have eW2 : ∀ ww e,
        Word.parse_bytes (l₁.drop ((Header.field_offsets ww).getD 2 0)) ww e =
        Word.parse_bytes (l₂.drop ((Header.field_offsets ww).getD 2 0)) ww e := by
      intro ww e
      cases ww <;>
        (simp only [Header.field_offsets, List.getD_cons_zero,
          List.getD_cons_succ]
         exact word_drop_congr hl₁ hl₂ ha _ (by norm_num [WordWidth.size]) e)
    have efl : ∀ ww e,
        val32 (l₁.drop ((Header.field_offsets ww).getD 3 0)) e =
        val32 (l₂.drop ((Header.field_offsets ww).getD 3 0)) e := by
      intro ww e
      cases ww <;>
        (simp only [Header.field_offsets, List.getD_cons_zero,
          List.getD_cons_succ]
         exact val32_drop_congr ha (by norm_num) e)
    have e16 : ∀ j, 4 ≤ j → j ≤ 9 → ∀ ww e,
        val16 (l₁.drop ((Header.field_offsets ww).getD j 0)) e =
        val16 (l₂.drop ((Header.field_offsets ww).getD j 0)) e := by
      intro j hj4 hj9 ww e
      interval_cases j <;> cases ww <;>
        (simp only [Header.field_offsets, List.getD_cons_zero,
          List.getD_cons_succ]
         exact val16_drop_congr ha (by norm_num) e)
    simp only [Header.parse_bytes, ec₁, ec₂, emagic, eg4, eg5, eg6, eg7,
      eg8, ecreq₁, ecreq₂, eft, earch, ever, eW0, eW1, eW2, efl,
      e16 4 (by omega) (by omega), e16 5 (by omega) (by omega),
      e16 6 (by omega) (by omega), e16 7 (by omega) (by omega),
      e16 8 (by omega) (by omega), e16 9 (by omega) (by omega)]
  · have h4' : l₂.getD 4 0 = 1 := by
      rw [← ha 4 (by omega)]
      exact h4
    have hwwp : WordWidth.parse_byte 1 = .ok .Width32 := rfl
    have eW0 : ∀ e, Word.parse_bytes (l₁.drop 24) .Width32 e =
        Word.parse_bytes (l₂.drop 24) .Width32 e :=
      fun e => word_drop_congr hl₁ hl₂ ha .Width32
        (by norm_num [WordWidth.size]) e
    have eW1 : ∀ e, Word.parse_bytes (l₁.drop 28) .Width32 e =
        Word.parse_bytes (l₂.drop 28) .Width32 e :=
      fun e => word_drop_congr hl₁ hl₂ ha .Width32
        (by norm_num [WordWidth.size]) e
    have eW2 : ∀ e, Word.parse_bytes (l₁.drop 32) .Width32 e =
        Word.parse_bytes (l₂.drop 32) .Width32 e :=
      fun e => word_drop_congr hl₁ hl₂ ha .Width32
        (by norm_num [WordWidth.size]) e
    have efl : ∀ e, val32 (l₁.drop 36) e = val32 (l₂.drop 36) e :=
      fun e => val32_drop_congr ha (by norm_num) e
    have e40 : ∀ e, val16 (l₁.drop 40) e = val16 (l₂.drop 40) e :=
      fun e => val16_drop_congr ha (by norm_num) e
    have e42 : ∀ e, val16 (l₁.drop 42) e = val16 (l₂.drop 42) e :=
      fun e => val16_drop_congr ha (by norm_num) e
    have e44 : ∀ e, val16 (l₁.drop 44) e = val16 (l₂.drop 44) e :=
      fun e => val16_drop_congr ha (by norm_num) e
    have e46 : ∀ e, val16 (l₁.drop 46) e = val16 (l₂.drop 46) e :=
      fun e => val16_drop_congr ha (by norm_num) e
    have e48 : ∀ e, val16 (l₁.drop 48) e = val16 (l₂.drop 48) e :=
      fun e => val16_drop_congr ha (by norm_num) e
    have e50 : ∀ e, val16 (l₁.drop 50) e = val16 (l₂.drop 50) e :=
      fun e => val16_drop_congr ha (by norm_num) e
    simp only [Header.parse_bytes, ec₁, ec₂, emagic, h4, h4', hwwp,
      Header.required_bytes, Header.field_offsets, List.getD_cons_zero,
      List.getD_cons_succ, eg5, eg6, eg7, eg8, eft, earch, ever, eW0, eW1,
      eW2, efl, e40, e42, e44, e46, e48, e50]

/-- C10: Header::parse_bytes depends only on the prefix the declared
word width requires — two slices of length at least 64 agreeing on their
first 64 bytes parse identically, and two slices of length at least 52
agreeing on their first 52 bytes whose byte 4 declares a 32-bit header
parse identically; trailing bytes never influence the result. -/
theorem c10_prefix_independence (l₁ l₂ : List Nat) :
    (64 ≤ l₁.length → 64 ≤ l₂.length → l₁.take 64 = l₂.take 64 →
      Header.parse_bytes l₁ = Header.parse_bytes l₂) ∧
    (52 ≤ l₁.length → 52 ≤ l₂.length → l₁.take 52 = l₂.take 52 →
      l₁.getD 4 0 = 1 →
      Header.parse_bytes l₁ = Header.parse_bytes l₂) :=
  ⟨fun h₁ h₂ ht => header_parse_congr h₁ h₂ ht (Or.inl rfl),
    fun h₁ h₂ ht h4 => header_parse_congr h₁ h₂ ht (Or.inr ⟨rfl, h4⟩)⟩

/-- C10, witness: appending trailing junk to either fixture does not
change the parse result. -/
theorem c10_witness :
    Header.parse_bytes (VALID_HEADER_DATA_32 ++ [0xDE, 0xAD]) =
      Header.parse_bytes VALID_HEADER_DATA_32 := by
  have h := (c10_prefix_independence (VALID_HEADER_DATA_32 ++ [0xDE, 0xAD])
    VALID_HEADER_DATA_32).2 (by decide) (by decide) (by decide) (by decide)
  exact h

end Elf
